import Mathlib

/-!
Verification of the mispatch_finder analysis-orchestration core.

This file gives a shallow embedding, in Lean 4, of the parts of the
repository that the specification's testable claims are about:

* the JSON value model and the behaviour of Python's `json.loads` /
  `json.dumps(..., ensure_ascii=False)` as used by the code
  (`core/services/json_extractor.py`, `core/services/analysis_orchestrator.py`,
  `infra/logging/log_summary.py`);
* `JsonExtractor.extract`;
* `DiffService.generate_diff`'s truncation policy;
* `AnalysisOrchestrator.analyze`'s control flow, with every port call
  modelled as a fallible step (`Except`), and the `finally` cleanup;
* `MCPServer.start_servers` from `infra/mcp_server.py`, including the
  CPython dataclass keyword-argument check that its
  `MCPServerContext(transport=..., ...)` construction is subject to;
* the hosted-LLM adapters' response handling
  (`itdev_llm_adapter/adapters/anthropic_adapter.py`, `openai_adapter.py`);
* `parse_log_file` / `parse_log_details` from `infra/logging/log_summary.py`.

Python strings are modelled as lists of unicode scalar values
(`Str := List Char`).  The embedded model of `json.loads` is faithful to
Python's strict JSON grammar for null / booleans / integers / strings /
arrays / objects (duplicate keys resolved dict-style: first position,
last value), with the following documented restrictions, none of which
any claim under study depends on: number literals with a fraction or
exponent part (floats), the non-standard `NaN`/`Infinity` literals, and
`\uXXXX` escapes denoting surrogate halves are treated as parse
failures (Lean `Char` cannot represent lone surrogates and the claims
never exercise non-integer numerals).
-/

/-- Python strings, as sequences of unicode scalar values. -/
abbrev Str := List Char

/-- The JSON value model: the possible results of `json.loads` (with
numbers restricted to integers, see the module comment). -/
inductive Json where
  | null : Json
  | bool : Bool → Json
  | num : Int → Json
  | str : Str → Json
  | arr : List Json → Json
  | obj : List (Str × Json) → Json

/-- Python truthiness (`bool(x)`) of a JSON value: `None`, `False`, `0`,
`""`, `[]` and `{}` are falsy, everything else truthy. -/
def Json.truthy : Json → Bool
  | .null => false
  | .bool b => b
  | .num n => n != 0
  | .str s => !s.isEmpty
  | .arr l => !l.isEmpty
  | .obj d => !d.isEmpty

/-- Association-list lookup for JSON object members (`dict` lookup). -/
def jlookup : List (Str × Json) → Str → Option Json
  | [], _ => none
  | (k', v) :: rest, k => if k' = k then some v else jlookup rest k

/-- Python `dict` insertion: an existing key keeps its position and gets
the new value, a new key is appended.  This is how `json.loads` resolves
duplicate object keys (last value wins, first position kept). -/
def insertPair : List (Str × Json) → Str → Json → List (Str × Json)
  | [], k, v => [(k, v)]
  | (k', v') :: rest, k, v =>
      if k' = k then (k', v) :: rest else (k', v') :: insertPair rest k v

/-- JSON whitespace, as accepted between tokens by `json.loads`. -/
def isJws (c : Char) : Bool :=
  c = ' ' || c = '\t' || c = '\n' || c = '\r'

/-- Drop leading JSON whitespace. -/
def skipWs : Str → Str
  | [] => []
  | c :: cs => if isJws c then skipWs cs else c :: cs

/-- Value of a hexadecimal digit, if the character is one. -/
def hexVal : Char → Option Nat := fun c =>
  if '0' ≤ c ∧ c ≤ '9' then some (c.toNat - 48)
  else if 'a' ≤ c ∧ c ≤ 'f' then some (c.toNat - 87)
  else if 'A' ≤ c ∧ c ≤ 'F' then some (c.toNat - 55)
  else none

/-- The shorthand escapes accepted after a backslash in a JSON string
literal. -/
def escTable : Char → Option Char := fun e =>
  if e = '"' then some '"'
  else if e = '\\' then some '\\'
  else if e = '/' then some '/'
  else if e = 'b' then some (Char.ofNat 8)
  else if e = 'f' then some (Char.ofNat 12)
  else if e = 'n' then some '\n'
  else if e = 'r' then some '\r'
  else if e = 't' then some '\t'
  else none

/-- Body of a JSON string literal, after the opening quote: returns the
decoded characters and the input following the closing quote.  Escapes
and the rejection of raw control characters follow `json.loads`'s strict
mode; `\uXXXX` yielding a surrogate half is rejected (see module
comment). -/
def parseStrBody : Str → Option (Str × Str)
  | [] => none
  | c :: rest =>
      if c = '"' then some ([], rest)
      else if c = '\\' then
        match rest with
        | [] => none
        | e :: rest1 =>
            if e = 'u' then
              match rest1 with
              | h1 :: h2 :: h3 :: h4 :: rest2 =>
                  match hexVal h1, hexVal h2, hexVal h3, hexVal h4 with
                  | some a, some b, some c2, some d =>
                      let code := ((a * 16 + b) * 16 + c2) * 16 + d
                      if code < 0xd800 ∨ 0xdfff < code then
                        (parseStrBody rest2).map (fun p => (Char.ofNat code :: p.1, p.2))
                      else none
                  | _, _, _, _ => none
              | _ => none
            else
              match escTable e with
              | some ch => (parseStrBody rest1).map (fun p => (ch :: p.1, p.2))
              | none => none
      else if c.toNat < 0x20 then none
      else (parseStrBody rest).map (fun p => (c :: p.1, p.2))

/-- Maximal run of decimal digits, accumulating their value. -/
def digitsVal (acc : Nat) : Str → Nat × Str
  | [] => (acc, [])
  | c :: cs =>
      if c.isDigit then digitsVal (acc * 10 + (c.toNat - 48)) cs
      else (acc, c :: cs)

/-- After the integer part of a number: a fraction or exponent part is a
parse failure in this model (floats are out of scope, module comment). -/
def intOnlyGuard (n : Nat) : Str → Option (Nat × Str)
  | [] => some (n, [])
  | c :: cs =>
      if c = '.' ∨ c = 'e' ∨ c = 'E' then none else some (n, c :: cs)

/-- Unsigned JSON integer literal: `0`, or a nonzero leading digit
followed by a maximal digit run (leading zeros are not part of the JSON
number grammar, matching `json.loads`). -/
def parseUNum : Str → Option (Nat × Str)
  | [] => none
  | c :: cs =>
      if c = '0' then intOnlyGuard 0 cs
      else if c.isDigit then
        let p := digitsVal (c.toNat - 48) cs
        intOnlyGuard p.1 p.2
      else none

/-- Signed JSON integer literal. -/
def parseNumBody : Str → Option (Int × Str)
  | [] => none
  | c :: cs =>
      if c = '-' then (parseUNum cs).map (fun p => (-(p.1 : Int), p.2))
      else (parseUNum (c :: cs)).map (fun p => ((p.1 : Int), p.2))

/-- Expect a literal character sequence. -/
def stripLit : Str → Str → Option Str
  | [], rest => some rest
  | l :: ls, c :: cs => if c = l then stripLit ls cs else none
  | _ :: _, [] => none

mutual

/-- One JSON value, preceded by optional whitespace, with explicit fuel
(decreased on every recursive descent; `jloads` supplies enough).
The token dispatch mirrors `json.loads`'s scanner: objects, arrays,
strings, `true`/`false`/`null`, else a number. -/
def parseVal : Nat → Str → Option (Json × Str)
  | 0, _ => none
  | fuel + 1, cs =>
      match skipWs cs with
      | [] => none
      | c :: r =>
          if c = '{' then
            match skipWs r with
            | '}' :: r' => some (.obj [], r')
            | _ => (parsePairs fuel [] r).map (fun p => (.obj p.1, p.2))
          else if c = '[' then
            match skipWs r with
            | ']' :: r' => some (.arr [], r')
            | _ => (parseItems fuel r).map (fun p => (.arr p.1, p.2))
          else if c = '"' then
            (parseStrBody r).map (fun p => (.str p.1, p.2))
          else if c = 't' then
            (stripLit ['r', 'u', 'e'] r).map (fun r' => (.bool true, r'))
          else if c = 'f' then
            (stripLit ['a', 'l', 's', 'e'] r).map (fun r' => (.bool false, r'))
          else if c = 'n' then
            (stripLit ['u', 'l', 'l'] r).map (fun r' => (.null, r'))
          else
            (parseNumBody (c :: r)).map (fun p => (.num p.1, p.2))

/-- One or more comma-separated array items followed by `]` (a trailing
comma is a parse failure, as in `json.loads`). -/
def parseItems : Nat → Str → Option (List Json × Str)
  | 0, _ => none
  | fuel + 1, cs =>
      match parseVal fuel cs with
      | none => none
      | some (v, r) =>
          match skipWs r with
          | ',' :: r' => (parseItems fuel r').map (fun p => (v :: p.1, p.2))
          | ']' :: r' => some ([v], r')
          | _ => none

/-- One or more `"key": value` members followed by `}`, accumulated with
Python-`dict` insertion semantics. -/
def parsePairs : Nat → List (Str × Json) → Str → Option (List (Str × Json) × Str)
  | 0, _, _ => none
  | fuel + 1, acc, cs =>
      match skipWs cs with
      | '"' :: r =>
          match parseStrBody r with
          | none => none
          | some (k, r1) =>
              match skipWs r1 with
              | ':' :: r2 =>
                  match parseVal fuel r2 with
                  | none => none
                  | some (v, r3) =>
                      let acc' := insertPair acc k v
                      match skipWs r3 with
                      | ',' :: r4 => parsePairs fuel acc' r4
                      | '}' :: r4 => some (acc', r4)
                      | _ => none
              | _ => none
      | _ => none

end

/-- Model of `json.loads`: parse one JSON document and require that only
whitespace follows (Python raises "Extra data" otherwise, which the
callers under study treat as a parse failure). -/
def jloads (s : Str) : Option Json :=
  match parseVal (s.length + 1) s with
  | some (j, rest) => if skipWs rest = [] then some j else none
  | none => none

/-- Lowercase hexadecimal digit for a value below 16. -/
def hexDigitChar (n : Nat) : Char :=
  if n < 10 then Char.ofNat (48 + n) else Char.ofNat (87 + n)

/-- Serialization of one character inside a JSON string literal, as done
by `json.dumps(..., ensure_ascii=False)`: escape the quote, the
backslash and control characters (shorthand escapes for the usual five,
`\u00xx` otherwise), and emit every other character raw. -/
def escChar (c : Char) : Str :=
  if c = '"' then ['\\', '"']
  else if c = '\\' then ['\\', '\\']
  else if c = '\n' then ['\\', 'n']
  else if c = '\r' then ['\\', 'r']
  else if c = '\t' then ['\\', 't']
  else if c.toNat = 8 then ['\\', 'b']
  else if c.toNat = 12 then ['\\', 'f']
  else if c.toNat < 0x20 then
    ['\\', 'u', '0', '0', hexDigitChar (c.toNat / 16), hexDigitChar (c.toNat % 16)]
  else [c]

/-- Serialization of a JSON string body. -/
def escStr (s : Str) : Str := s.foldr (fun c acc => escChar c ++ acc) []

/-- Decimal digits of a natural number. -/
def natToChars (n : Nat) : Str :=
  if n < 10 then [Nat.digitChar n]
  else natToChars (n / 10) ++ [Nat.digitChar (n % 10)]
decreasing_by exact Nat.div_lt_self (by omega) (by omega)

/-- Decimal representation of an integer, as printed by `json.dumps`. -/
def intToChars (n : Int) : Str :=
  if n < 0 then '-' :: natToChars n.natAbs else natToChars n.toNat

mutual

/-- Model of `json.dumps(v, ensure_ascii=False)` with the default
separators `", "` and `": "` (the exact form produced at
`json_extractor.py` line 37). -/
def dumpVal : Json → Str
  | .num n => intToChars n
  | .str s => '"' :: (escStr s ++ ['"'])
  | .arr [] => ['[', ']']
  | .arr (x :: xs) => '[' :: (dumpVal x ++ dumpItemsTail xs ++ [']'])
  | .obj [] => ['{', '}']
  | .obj (p :: ps) => '{' :: (dumpPair p ++ dumpPairsTail ps ++ ['}'])
  | .bool false => ['f', 'a', 'l', 's', 'e']
  | .bool true => ['t', 'r', 'u', 'e']
  | .null => ['n', 'u', 'l', 'l']

/-- `", "`-separated remaining array items. -/
def dumpItemsTail : List Json → Str
  | [] => []
  | x :: xs => ',' :: ' ' :: (dumpVal x ++ dumpItemsTail xs)

/-- One `"key": value` member. -/
def dumpPair : Str × Json → Str
  | (k, v) => '"' :: (escStr k ++ ['"', ':', ' '] ++ dumpVal v)

/-- `", "`-separated remaining object members. -/
def dumpPairsTail : List (Str × Json) → Str
  | [] => []
  | p :: ps => ',' :: ' ' :: (dumpPair p ++ dumpPairsTail ps)

end

/-- Index of the first occurrence of a character, counting from `i`. -/
def findFrom : Str → Char → Nat → Option Nat
  | [], _, _ => none
  | x :: xs, c, i => if x = c then some i else findFrom xs c (i + 1)

/-- Python `str.find`: index of the first occurrence, `-1` if absent. -/
def pyFind (s : Str) (c : Char) : Int :=
  match findFrom s c 0 with
  | some i => (i : Int)
  | none => -1

/-- Python `str.rfind`: index of the last occurrence, `-1` if absent. -/
def pyRfind (s : Str) (c : Char) : Int :=
  match findFrom s.reverse c 0 with
  | some i => ((s.length - 1 - i : Nat) : Int)
  | none => -1

/-- Python slice `s[a:b]` for `0 ≤ a ≤ b` (the only case `extract`
reaches). -/
def pySliceCore (s : Str) (a b : Nat) : Str := (s.drop a).take (b - a)

namespace JsonExtractor

/-- `JsonExtractor.extract` (`core/services/json_extractor.py` lines
13-41): locate the first `\x7b` and the last `\x7d`; if either is absent
or the last `\x7d` is not after the first `\x7b`, return the text
unchanged; otherwise try to parse the delimited substring as JSON and
return its compact re-serialization, falling back to the unchanged text
on a parse failure. -/
def extract (text : Str) : Str :=
  let start := pyFind text '{'
  let stop := pyRfind text '}'
  if start = -1 ∨ stop = -1 ∨ stop ≤ start then text
  else
    let json_str := pySliceCore text start.toNat (stop.toNat + 1)
    match jloads json_str with
    | some parsed => dumpVal parsed
    | none => text

end JsonExtractor

/-- `DiffResult` (`core/services/diff_service.py` lines 10-17). -/
structure DiffResult where
  full_text : Str
  truncated_text : Str
  full_len : Nat
  included_len : Nat
  was_truncated : Bool

/-- The truncation marker `"\n...\n"` spliced between head and tail. -/
def truncMarker : Str := ['\n', '.', '.', '.', '\n']

/-- Python slice `s[-k:]` for `k ≥ 0`: for `k = 0` this is `s[0:]`, the
whole string (negative zero does not exist), otherwise the last
`min k (len s)` characters. -/
def pyLastSlice (s : Str) (k : Nat) : Str :=
  if k = 0 then s else s.drop (s.length - k)

namespace DiffService

/-- The truncation policy of `DiffService.generate_diff`
(`core/services/diff_service.py` lines 51-67), applied to the diff text
obtained from the repository port.  `max_chars` is the configured
`diff_max_chars` (a non-negative int; the shipped default is 200000). -/
def generate_diff (max_chars : Nat) (full_text : Str) : DiffResult :=
  if full_text.length > max_chars then
    let headPart := full_text.take (max_chars / 2)
    let tailPart := pyLastSlice full_text (max_chars - headPart.length)
    let truncated_text := headPart ++ truncMarker ++ tailPart
    { full_text := full_text
      truncated_text := truncated_text
      full_len := full_text.length
      included_len := truncated_text.length
      was_truncated := true }
  else
    { full_text := full_text
      truncated_text := full_text
      full_len := full_text.length
      included_len := full_text.length
      was_truncated := false }

end DiffService

/-- Python exception values, as far as the models need to distinguish
them. -/
inductive Exc where
  | typeError (msg : String)
  | attributeError (msg : String)
  | valueError (msg : String)
  | runtimeError (msg : String)
  | other (msg : String)
deriving DecidableEq

/-- `Repository` (`core/domain/models.py`): only the fields the
orchestrator touches. -/
structure Repository where
  owner : Str
  name : Str

/-- `Repository.url`: the GitHub HTTPS URL. -/
def Repository.url (r : Repository) : Str :=
  "https://github.com/".toList ++ r.owner ++ ['/'] ++ r.name

/-- `Vulnerability` (`core/domain/models.py`). -/
structure Vulnerability where
  ghsa_id : Str
  repository : Repository
  commit_hash : Str
  cve_id : Option Str
  summary : Option Str
  severity : Option Str

/-- `AnalysisResult` (`core/domain/models.py`). -/
structure AnalysisResult where
  ghsa : Str
  provider : Str
  model : Str
  verdict : Option Str
  severity : Option Str
  rationale : Option Str
  evidence : Option (List Json)
  poc_idea : Option Str
  raw_text : Option Str

/-- The orchestrator-side view of `MCPServerContext` (`core/ports.py`
lines 100-110): URL and mount flags, plus the behaviour of its
`cleanup()` callback (which may itself raise). -/
structure MCPCtx where
  local_url : Str
  public_url : Str
  has_current : Bool
  has_previous : Bool
  cleanup_result : Except Exc Unit

/-- The injected ports of `AnalysisOrchestrator` (`core/ports.py`), each
call modelled as either a returned value or a raised exception.  The
structured logger (`infra/logging/logger.py`) delegates to the standard
`logging` package, which by design swallows handler errors and whose
record construction cannot fail for the keyword sets the orchestrator
uses, so logging is modelled as non-raising (its messages are traced in
the run record instead). -/
structure Ports where
  fetch_metadata : Str → Except Exc Vulnerability
  prepare_workdirs : Str → Str → Bool → Except Exc (Option Str × Option Str)
  get_diff : Str → Str → Except Exc Str
  start_servers : Option Str → Option Str → Str → Except Exc MCPCtx
  llm_call : Str → Str → Str → Except Exc Str
  token : Str
  max_chars : Nat

/-- `DiffService.generate_diff` as called from the orchestrator
(`core/services/diff_service.py` lines 30-67): an absent workdir yields
an empty diff, otherwise the repository port's `get_diff` (which may
raise) feeds the truncation policy. -/
def generateDiffStep (p : Ports) (workdir : Option Str) (commit : Str) :
    Except Exc DiffResult :=
  match workdir with
  | none => .ok (DiffService.generate_diff p.max_chars [])
  | some wd => (p.get_diff wd commit).map (DiffService.generate_diff p.max_chars)

/-- `build_prompt` (`core/domain/prompt.py`). -/
def build_prompt (ghsa repo_url commit : Str) (has_previous has_current : Bool)
    (diff_text : Str) : Str :=
  let previous_note :=
    if has_previous then "available".toList
    else "unavailable (no parent commit)".toList
  let current_note :=
    if has_current then "available".toList else "unavailable".toList
  let body :=
    "You are a security reviewer assessing patch correctness for GHSA ".toList
    ++ ghsa ++ ".\n".toList
    ++ "Repository: ".toList ++ repo_url ++ "\n".toList
    ++ "Patched commit: ".toList ++ commit ++ "\n".toList
    ++ "Previous-state tools: ".toList ++ previous_note
    ++ "; Current-state tools: ".toList ++ current_note ++ ".\n\n".toList
    ++ "# Repository States\n".toList
    ++ "- \x27previous\x27: Code state BEFORE the patch (parent commit of the patched commit)\n".toList
    ++ "- \x27current\x27: Latest version of the repository (HEAD), NOT necessarily the patched commit\n\n".toList
    ++ "Available tools are read-only repository tools for both states.\n\n".toList
    ++ "# Assessment Task\n".toList
    ++ "1) **Patch Risk Assessment**: Evaluate whether the patch adequately addressed the vulnerability.\n".toList
    ++ "   - Compare \x27previous\x27 (vulnerable code) with the patch diff\n".toList
    ++ "   - Rate: \"good\" (adequate fix) | \"low\" | \"medium\" | \"high\" (inadequate/incomplete fix)\n\n".toList
    ++ "2) **Current Risk Assessment**: Determine if the vulnerability risk persists in the latest version.\n".toList
    ++ "   - If patch was adequate (patch_risk = \"good\"), current_risk should be \"good\"\n".toList
    ++ "   - If patch was inadequate, check \x27current\x27 state to see if the vulnerability still exists\n".toList
    ++ "   - Rate: \"good\" (no risk) | \"low\" | \"medium\" | \"high\" (risk persists)\n\n".toList
    ++ "3) **Proof of Concept**: Required ONLY if current_risk is not \"good\".\n".toList
    ++ "   - Provide exploit code or detailed steps demonstrating the vulnerability in the \x27current\x27 state\n".toList
    ++ "   - Omit this field if current_risk is \"good\"\n\n".toList
    ++ "Respond in JSON only with fields: \x7b\n".toList
    ++ "  \"patch_risk\": \"good\" | \"low\" | \"medium\" | \"high\",\n".toList
    ++ "  \"current_risk\": \"good\" | \"low\" | \"medium\" | \"high\",\n".toList
    ++ "  \"reason\": string,\n".toList
    ++ "  \"poc\"?: string  // Required only if current_risk != \"good\"\n".toList
    ++ "\x7d\n".toList
  if !diff_text.isEmpty then
    body ++ "\n\n--- DIFF (unified) ---\n".toList ++ diff_text
  else body

/-- String-valued field read: `parsed.get(k)` followed by an
`isinstance(..., str)` check. -/
def getStrField (d : List (Str × Json)) (k : Str) : Option Str :=
  match jlookup d k with
  | some (.str s) => some s
  | _ => none

/-- Steps 7 and 8 of `AnalysisOrchestrator.analyze`
(`core/services/analysis_orchestrator.py` lines 138-195): parse the
extracted JSON and populate the `AnalysisResult` fields with the
back-compatible aliasing (`current_risk` to `verdict`, `patch_risk` to
`severity`, `reason` falling back to `rationale`, `poc` falling back to
`poc_idea`, `evidence` accepting a list or a single dict); a parse
failure or a non-dict document leaves every structured field `None`. -/
def resultFromLLM (ghsa : Str) (extracted_json : Str) : AnalysisResult :=
  let fields :=
    match jloads extracted_json with
    | some (.obj parsed) =>
        let verdict := getStrField parsed "current_risk".toList
        let severity := getStrField parsed "patch_risk".toList
        let rationale :=
          match getStrField parsed "reason".toList with
          | some r => some r
          | none => getStrField parsed "rationale".toList
        let evidence : Option (List Json) :=
          match jlookup parsed "evidence".toList with
          | some (.arr l) => some l
          | some (.obj d) => some [Json.obj d]
          | _ => none
        let poc_idea :=
          match getStrField parsed "poc".toList with
          | some pc => some pc
          | none => getStrField parsed "poc_idea".toList
        (verdict, severity, rationale, evidence, poc_idea)
    | _ => (none, none, none, none, none)
  { ghsa := ghsa
    provider := []
    model := []
    verdict := fields.1
    severity := fields.2.1
    rationale := fields.2.2.1
    evidence := fields.2.2.2.1
    poc_idea := fields.2.2.2.2
    raw_text := some extracted_json }

/-- The observable record of one `analyze` run: its outcome, how many
times the MCP context's `cleanup()` was invoked, and the trace of
logged event messages. -/
structure AnalyzeRun where
  outcome : Except Exc AnalysisResult
  cleanup_calls : Nat
  log : List String

/-- The `finally` block of `analyze`
(`core/services/analysis_orchestrator.py` lines 216-221): if the MCP
context was created, invoke its `cleanup()` exactly once, catching and
logging (`logger.exception("mcp_cleanup_error")`) any exception it
raises. -/
def finalizeRun (mcp_ctx : Option MCPCtx) (log : List String)
    (outcome : Except Exc AnalysisResult) : AnalyzeRun :=
  match mcp_ctx with
  | none => ⟨outcome, 0, log⟩
  | some ctx =>
      match ctx.cleanup_result with
      | .ok _ => ⟨outcome, 1, log⟩
      | .error _ => ⟨outcome, 1, log ++ ["mcp_cleanup_error"]⟩

/-- `AnalysisOrchestrator.analyze`
(`core/services/analysis_orchestrator.py` lines 47-221): token, then the
try-block steps 1-8 in order, each port call able to raise, with the
`finally` of `finalizeRun` applied to every exit path (`mcp_ctx` is
`None` until `start_servers` returns). -/
def analyze (p : Ports) (ghsa : Str) (force_reclone : Bool) : AnalyzeRun :=
  let mcp_token := p.token
  match p.fetch_metadata ghsa with
  | .error e => finalizeRun none [] (.error e)
  | .ok vuln =>
    let log1 := ["ghsa_meta"]
    match p.prepare_workdirs vuln.repository.url vuln.commit_hash force_reclone with
    | .error e => finalizeRun none log1 (.error e)
    | .ok (current, previous) =>
      let log2 := log1 ++ ["repos_prepared"]
      let base_worktree := current <|> previous
      match generateDiffStep p base_worktree vuln.commit_hash with
      | .error e => finalizeRun none log2 (.error e)
      | .ok diff_result =>
        let log3 := log2 ++ ["diff_built"]
        match p.start_servers current previous mcp_token with
        | .error e => finalizeRun none log3 (.error e)
        | .ok mcp_ctx =>
          let log4 := log3 ++ ["mcp_ready"]
          let prompt := build_prompt ghsa vuln.repository.url vuln.commit_hash
            mcp_ctx.has_previous mcp_ctx.has_current diff_result.truncated_text
          match p.llm_call prompt (mcp_ctx.public_url ++ "/mcp".toList) mcp_token with
          | .error e => finalizeRun (some mcp_ctx) log4 (.error e)
          | .ok raw_text =>
            let extracted_json := JsonExtractor.extract raw_text
            let result := resultFromLLM ghsa extracted_json
            finalizeRun (some mcp_ctx) (log4 ++ ["final_result"]) (.ok result)

/-- Independent characterization of "the MCP context was created during
this run": the metadata fetch, the workdir preparation, the diff
generation and `start_servers` all succeeded. -/
def reachesServers (p : Ports) (ghsa : Str) (force_reclone : Bool) : Bool :=
  match p.fetch_metadata ghsa with
  | .error _ => false
  | .ok vuln =>
    match p.prepare_workdirs vuln.repository.url vuln.commit_hash force_reclone with
    | .error _ => false
    | .ok (current, previous) =>
      match generateDiffStep p (current <|> previous) vuln.commit_hash with
      | .error _ => false
      | .ok _ =>
        match p.start_servers current previous p.token with
        | .error _ => false
        | .ok _ => true

/-- A content block of a provider response
(`anthropic_adapter.py` lines 52-58): a text block carries its text;
any other block (or one whose attributes are missing, which the
adapter's `except AttributeError: continue` skips) contributes
nothing. -/
inductive BetaBlock where
  | text (body : Str)
  | nonText (kind : String)

/-- Token counts of the Anthropic SDK usage object. -/
structure AUsage where
  input_tokens : Option Int
  output_tokens : Option Int

/-- The Anthropic SDK response, as far as `run` inspects it:
content blocks, optional usage, and the string rendering `str(message)`
of the SDK object. -/
structure AnthropicMessage where
  content : List BetaBlock
  usage : Option AUsage
  reprStr : Str

/-- `TokenUsage` (`itdev_llm_adapter/types.py`). -/
structure TokenUsage where
  input_tokens : Option Int
  output_tokens : Option Int
  total_tokens : Option Int
deriving DecidableEq

/-- `LLMResponse` (`itdev_llm_adapter/types.py`). -/
structure LLMResponse where
  text : Str
  usage : Option TokenUsage

/-- The texts of the text-type content blocks, in order. -/
def textBlocks (content : List BetaBlock) : List Str :=
  content.foldr (fun b acc => match b with | .text t => t :: acc | .nonText _ => acc) []

namespace AnthropicHostedMCPAdapter

/-- Response handling of `AnthropicHostedMCPAdapter.run`
(`itdev_llm_adapter/adapters/anthropic_adapter.py` lines 51-65), given
the provider's final response: join the text blocks — falling back to
`str(message)` when there are none — and assemble token usage without
raising when usage data is absent. -/
def run (message : AnthropicMessage) : LLMResponse :=
  let texts := textBlocks message.content
  let text := if !texts.isEmpty then texts.foldr (· ++ ·) [] else message.reprStr
  let usage :=
    match message.usage with
    | none => TokenUsage.mk none none none
    | some u =>
        let iu := u.input_tokens
        let ou := u.output_tokens
        let tt :=
          if iu.isSome ∨ ou.isSome then some (iu.getD 0 + ou.getD 0) else none
        TokenUsage.mk iu ou tt
  ⟨text, some usage⟩

end AnthropicHostedMCPAdapter

/-- Usage counts of the OpenAI SDK response object, with each field
already filtered through the adapter's `isinstance(..., int)` check
(`none` for a missing or non-int attribute). -/
structure OUsage where
  input_tokens : Option Int
  output_tokens : Option Int
  total_tokens : Option Int

/-- The OpenAI SDK response, as far as `run` inspects it. -/
structure OpenAIResponse where
  output_text : Str
  usage : Option OUsage
  reprStr : Str

namespace OpenAIHostedMCPAdapter

/-- Response handling of `OpenAIHostedMCPAdapter.run`
(`itdev_llm_adapter/adapters/openai_adapter.py` lines 63-71):
`response.output_text or str(response)`, plus usage when present. -/
def run (response : OpenAIResponse) : LLMResponse :=
  let usage : Option TokenUsage :=
    match response.usage with
    | none => none
    | some u => some ⟨u.input_tokens, u.output_tokens, u.total_tokens⟩
  ⟨if !response.output_text.isEmpty then response.output_text else response.reprStr,
   usage⟩

end OpenAIHostedMCPAdapter

/-- Observable actions and logged milestones of
`MCPServer.start_servers` (`infra/mcp_server.py`). -/
inductive MCPEvent where
  | stdioStarting
  | aggregatorStarted
  | tunnelStarted
  | tunnelSkipped
  | tunnelStopped
deriving DecidableEq

/-- The field list of the `MCPServerContext` dataclass actually defined
in `core/ports.py` (lines 100-110): there is no `transport` field. -/
def mcpServerContextFields : List String :=
  ["local_url", "public_url", "has_current", "has_previous"]

/-- CPython's keyword-argument check for a dataclass-generated
`__init__` without defaults: an unexpected or missing keyword raises
`TypeError`. -/
def dataclassNewCheck (fields kwargs : List String) : Except Exc Unit :=
  if kwargs.all (fun k => fields.contains k) ∧ fields.all (fun f => kwargs.contains f)
  then .ok ()
  else .error (.typeError "MCPServerContext.__init__ got an unexpected keyword argument")

/-- The keywords `infra/mcp_server.py` passes when constructing its
context (lines 89-95 and 143-149): `transport` is among them. -/
def mcpServerContextKwargs : List String :=
  ["transport", "local_url", "public_url", "has_current", "has_previous"]

/-- Payload of a successfully constructed context (reachable only if
the dataclass call were valid). -/
structure MCPInfraCtx where
  local_url : Option Str
  public_url : Option Str
  has_current : Bool
  has_previous : Bool

namespace MCPServer

/-- `MCPServer.start_servers` (`infra/mcp_server.py` lines 26-162).
External collaborators: `make_repo_mcp`, the FastMCP aggregator, its
middleware and the daemon-thread start are non-raising constructions;
`Tunnel.start_tunnel` is the `tunnel` argument (its failure mode,
`Tunnel._launch` raising after a URL timeout, stops its own ssh process
before raising, so a tunnel-step error leaves no tunnel running).  The
regex match on the locally constructed `http://127.0.0.1:{port}` URL
always succeeds, so the `ValueError` branch at line 126 is dead code.
The context construction passes a `transport` keyword that the
`MCPServerContext` dataclass of `core/ports.py` does not declare, which
CPython rejects with `TypeError` (`dataclassNewCheck`); the `cleanup`
closure that would stop the tunnel is only defined and attached after
that construction.  The returned trace records which actions had
happened when the call returned or raised. -/
def start_servers (tunnel : Except Exc Str)
    (current_workdir previous_workdir : Option Str) (auth_token : Str)
    (transport : String) (port : Option Nat) (use_tunnel : Bool) :
    Except Exc MCPInfraCtx × List MCPEvent :=
  let _ := auth_token
  if transport ≠ "stdio" ∧ transport ≠ "streamable-http" then
    (.error (.valueError "Invalid transport mode"), [])
  else if transport = "streamable-http" ∧ port = none then
    (.error (.valueError "Port is required for streamable-http transport mode."), [])
  else
    let current_repo := current_workdir.isSome
    let previous_repo := previous_workdir.isSome
    if transport = "stdio" then
      match dataclassNewCheck mcpServerContextFields mcpServerContextKwargs with
      | .error e => (.error e, [.stdioStarting])
      | .ok _ => (.ok ⟨none, none, current_repo, previous_repo⟩, [.stdioStarting])
    else
      let ev1 : List MCPEvent := [.aggregatorStarted]
      if use_tunnel then
        match tunnel with
        | .error e => (.error e, ev1)
        | .ok public_url =>
            let ev2 := ev1 ++ [.tunnelStarted]
            match dataclassNewCheck mcpServerContextFields mcpServerContextKwargs with
            | .error e => (.error e, ev2)
            | .ok _ =>
                (.ok ⟨some ("http://127.0.0.1:18080".toList), some public_url,
                      current_repo, previous_repo⟩, ev2)
      else
        let ev2 := ev1 ++ [.tunnelSkipped]
        match dataclassNewCheck mcpServerContextFields mcpServerContextKwargs with
        | .error e => (.error e, ev2)
        | .ok _ =>
            (.ok ⟨some ("http://127.0.0.1:18080".toList), none,
                  current_repo, previous_repo⟩, ev2)

end MCPServer

/-- `x.get(k)` where `x` may not be a dict: `AttributeError` unless it
is, else the member (absent and JSON-null both map to Python `None`,
i.e. `Json.null`). -/
def pyGetAttr (j : Json) (k : Str) : Except Exc Json :=
  match j with
  | .obj d => .ok ((jlookup d k).getD .null)
  | _ => .error (.attributeError "object has no attribute get")

/-- `d.get(k)` on a known dict (default `None`). -/
def dGet (d : List (Str × Json)) (k : Str) : Json := (jlookup d k).getD .null

/-- `d.get(k, dflt)` on a known dict. -/
def dGetD (d : List (Str × Json)) (k : Str) (dflt : Json) : Json :=
  (jlookup d k).getD dflt

/-- Python `a or b`. -/
def pyOr (a b : Json) : Json := if a.truthy then a else b

/-- Python `x == "lit"` for a JSON value against a string literal. -/
def jeqStr (j : Json) (s : String) : Bool :=
  match j with
  | .str t => t = s.toList
  | _ => false

/-- `isinstance(x, str)`. -/
def jAsStr : Json → Option Str
  | .str s => some s
  | _ => none

/-- `isinstance(x, int)` — in Python this also accepts booleans
(`bool` subclasses `int`, `True == 1`). -/
def jAsInt : Json → Option Int
  | .num n => some n
  | .bool b => some (if b then 1 else 0)
  | _ => none

/-- Python hashability of a JSON value (lists and dicts are
unhashable; using one as a dict key raises `TypeError`). -/
def pyHashable : Json → Bool
  | .arr _ => false
  | .obj _ => false
  | _ => true

/-- Python `==` between hashable JSON scalars, as used for dict-key
identity (`True == 1`, `False == 0`). -/
def pyKeyEq (a b : Json) : Bool :=
  match a, b with
  | .null, .null => true
  | .str s, .str t => s = t
  | .num m, .num n => m = n
  | .bool x, .num n => (if x then (1 : Int) else 0) = n
  | .num n, .bool x => n = (if x then (1 : Int) else 0)
  | .bool x, .bool y => x = y
  | _, _ => false

/-- `d.get(k, dflt)` for the tool-call counter dict. -/
def countsGet (l : List (Json × Int)) (k : Json) (dflt : Int) : Int :=
  match l with
  | [] => dflt
  | (k', v) :: rest => if pyKeyEq k' k then v else countsGet rest k dflt

/-- `d[k] = v` for the tool-call counter dict (existing key keeps its
slot and stored key object, as in CPython). -/
def countsSet (l : List (Json × Int)) (k : Json) (v : Int) : List (Json × Int) :=
  match l with
  | [] => [(k, v)]
  | (k', v') :: rest =>
      if pyKeyEq k' k then (k', v) :: rest else (k', v') :: countsSet rest k v

/-- Python `repr` of a string: prefer single quotes (double quotes only
when the text has a single quote but no double quote), escaping the
backslash, the chosen quote, and `\n`/`\r`/`\t`; other C0 controls and
DEL become `\xhh`.  (CPython additionally `\x`-escapes non-printable
characters above ASCII; the claims never reach `repr` of such data.) -/
def pyReprStr (s : Str) : Str :=
  let q : Char := if s.contains '\'' ∧ ¬ s.contains '"' then '"' else '\''
  let esc : Char → Str := fun c =>
    if c = '\\' then ['\\', '\\']
    else if c = q then ['\\', q]
    else if c = '\n' then ['\\', 'n']
    else if c = '\r' then ['\\', 'r']
    else if c = '\t' then ['\\', 't']
    else if c.toNat < 0x20 ∨ c.toNat = 0x7f then
      ['\\', 'x', hexDigitChar (c.toNat / 16), hexDigitChar (c.toNat % 16)]
    else [c]
  q :: (s.foldr (fun c acc => esc c ++ acc) []) ++ [q]

mutual

/-- Python `repr` of a JSON-shaped value, used by `repr` of containers
and by `str` on them.  Approximation documented at `pyStr`. -/
def pyRepr : Json → Str
  | .null => "None".toList
  | .bool true => "True".toList
  | .bool false => "False".toList
  | .num n => intToChars n
  | .str s => pyReprStr s
  | .arr [] => ['[', ']']
  | .arr (x :: xs) => '[' :: (pyRepr x ++ pyReprTail xs ++ [']'])
  | .obj [] => ['{', '}']
  | .obj (p :: ps) => '{' :: (pyReprPair p ++ pyReprPairsTail ps ++ ['}'])

/-- Remaining list elements of a `repr`. -/
def pyReprTail : List Json → Str
  | [] => []
  | x :: xs => ',' :: ' ' :: (pyRepr x ++ pyReprTail xs)

/-- One `key: value` of a dict `repr`. -/
def pyReprPair : Str × Json → Str
  | (k, v) => pyReprStr k ++ [':', ' '] ++ pyRepr v

/-- Remaining members of a dict `repr`. -/
def pyReprPairsTail : List (Str × Json) → Str
  | [] => []
  | p :: ps => ',' :: ' ' :: (pyReprPair p ++ pyReprPairsTail ps)

end

/-- Python `str` of a JSON-shaped value (`str(m)` at
`log_summary.py` line 273): identity on strings, `None`/`True`/`False`
and decimal integers, `repr` for containers. -/
def pyStr : Json → Str
  | .str s => s
  | .null => "None".toList
  | .bool true => "True".toList
  | .bool false => "False".toList
  | .num n => intToChars n
  | .arr l => pyRepr (.arr l)
  | .obj d => pyRepr (.obj d)

/-- Python `str.strip()` truthiness support: default-whitespace strip
(ASCII whitespace; exotic unicode spaces are out of the claims'
scope). -/
def pyStrip (s : Str) : Str :=
  let ws : Char → Bool := fun c =>
    c = ' ' || c = '\t' || c = '\n' || c = '\r' || c.toNat = 11 || c.toNat = 12
  ((s.dropWhile ws).reverse.dropWhile ws).reverse

/-- `RunSummary` (`infra/logging/log_summary.py` lines 8-20).  The
`model` slot is `Json`-typed because the loop's
`model = payload.get("model") or model` can store a non-string value
there. -/
structure RunSummary where
  ghsa_id : Str
  current_risk : Str
  patch_risk : Str
  reason : Str
  poc : Str
  model : Json
  run_date : Str
  mcp_total_calls : Int
  mcp_tool_counts : List (Json × Int)
  total_tokens : Int
  done : Bool

/-- `LogDetails` (`infra/logging/log_summary.py` lines 23-32). -/
structure LogDetails where
  ghsa_id : Str
  repo_url : Str
  commit : Str
  model : Str
  patch_risk : Str
  current_risk : Str
  reason : Str
  poc : Option Str

/-- The loop state of `parse_log_file` before the summary is
assembled. -/
structure PlfState where
  current_risk : Str
  patch_risk : Str
  reason : Str
  poc : Str
  model : Json
  run_date : Str
  mcp_total_calls : Int
  mcp_tool_counts : List (Json × Int)
  total_tokens : Int
  done : Bool

/-- One iteration of the `parse_log_file` loop
(`infra/logging/log_summary.py` lines 168-273) on an already
JSON-parsed line.  `obj.get("message")` raises `AttributeError` when
the line parsed to a non-dict; `res.get(...)` likewise when a truthy
non-dict sits under `result`; an unhashable tool name raises
`TypeError`; all other missing or oddly-typed fields are tolerated. -/
def plfLine (verbose : Bool) (st : PlfState) (obj : Json) : Except Exc PlfState := do
  let od ← match obj with
    | .obj od => pure od
    | _ => throw (.attributeError "object has no attribute get")
  let msg := dGet od "message".toList
  let payload_data := dGet od "payload".toList
  let payload : List (Str × Json) :=
    match payload_data with
    | .null => od
    | .obj pd => pd
    | _ => []
  -- msg == "mcp_request" / elif msg == "llm_usage"
  let st ←
    if jeqStr msg "mcp_request" then
      if jeqStr (dGet payload "method".toList) "tools/list" then pure st
      else
        let st := { st with mcp_total_calls := st.mcp_total_calls + 1 }
        if verbose then
          let mcp_msg := pyOr (dGet payload "mcp_message".toList)
            (dGetD payload "message".toList (.obj []))
          let tool_name : Json :=
            match mcp_msg with
            | .obj md => dGet md "name".toList
            | _ => .null
          if tool_name.truthy then
            if pyHashable tool_name then
              let counts' := countsSet st.mcp_tool_counts tool_name
                (countsGet st.mcp_tool_counts tool_name 0 + 1)
              pure { st with mcp_tool_counts := counts' }
            else throw (.typeError "unhashable type")
          else pure st
        else pure st
    else if jeqStr msg "llm_usage" then
      match jAsInt (dGet payload "total_tokens".toList) with
      | some t => pure { st with total_tokens := st.total_tokens + t }
      | none => pure st
    else pure st
  let typ := dGet payload "type".toList
  -- typ == "run_started" and not run_date
  let st :=
    if jeqStr typ "run_started" ∧ st.run_date = [] then
      let st := { st with run_date := [] }
      if !st.model.truthy then
        { st with model := pyOr (dGet payload "model".toList) st.model }
      else st
    else st
  -- typ == "llm_input"
  let st :=
    if jeqStr typ "llm_input" then
      if !st.model.truthy then
        { st with model := pyOr (dGet payload "model".toList) st.model }
      else st
    else st
  -- typ == "final_result"
  if jeqStr typ "final_result" then
    let st := { st with done := true }
    let res_j := pyOr (dGet payload "result".toList) (.obj [])
    let res ← match res_j with
      | .obj res => pure res
      | _ => throw (.attributeError "object has no attribute get")
    let st := match jAsStr (dGet res "verdict".toList) with
      | some s => { st with current_risk := s }
      | none => st
    let st := match jAsStr (dGet res "severity".toList) with
      | some s => { st with patch_risk := s }
      | none => st
    let st := match jAsStr (dGet res "rationale".toList) with
      | some s => { st with reason := s }
      | none => st
    let st := match jAsStr (dGet res "poc_idea".toList) with
      | some s => { st with poc := s }
      | none => st
    let st :=
      if !(st.current_risk ≠ [] ∧ st.patch_risk ≠ [] ∧ st.reason ≠ [] ∧ st.poc ≠ []) then
        let raw_text := dGet res "raw_text".toList
        if raw_text.truthy then
          -- json.loads of a non-str raises TypeError, caught alongside
          -- JSONDecodeError by the `except` at line 268
          match raw_text with
          | .str s =>
              match jloads s with
              | some (.obj jd) =>
                  let st := match jAsStr (dGet jd "current_risk".toList) with
                    | some v => if st.current_risk = [] then { st with current_risk := v } else st
                    | none => st
                  let st := match jAsStr (dGet jd "patch_risk".toList) with
                    | some v => if st.patch_risk = [] then { st with patch_risk := v } else st
                    | none => st
                  let st := match jAsStr (dGet jd "reason".toList) with
                    | some v => if st.reason = [] then { st with reason := v } else st
                    | none => st
                  let st := match jAsStr (dGet jd "poc".toList) with
                    | some v => if st.poc = [] then { st with poc := v } else st
                    | none => st
                  let st :=
                    if st.patch_risk = [] then
                      match jAsStr (dGet jd "severity".toList) with
                      | some v => { st with patch_risk := v }
                      | none => st
                    else st
                  let st :=
                    if st.reason = [] then
                      match jAsStr (dGet jd "rationale".toList) with
                      | some v => { st with reason := v }
                      | none => st
                    else st
                  if st.poc = [] then
                    match jAsStr (dGet jd "poc_idea".toList) with
                    | some v => { st with poc := v }
                    | none => st
                  else st
              | _ => st
          | _ => st
        else st
      else st
    let m := dGet res "model".toList
    if m.truthy then pure { st with model := .str (pyStr m) }
    else pure st
  else
    pure st

/-- The line loop of `parse_log_file`: lines that fail to parse as JSON
are skipped (`except Exception: continue` around `json.loads` only). -/
def plfLoop (verbose : Bool) (st : PlfState) : List Str → Except Exc PlfState
  | [] => .ok st
  | line :: rest =>
      match jloads line with
      | none => plfLoop verbose st rest
      | some obj => do
          let st' ← plfLine verbose st obj
          plfLoop verbose st' rest

/-- `parse_log_file` (`infra/logging/log_summary.py` lines 155-291).
`stem` is `fp.stem`; `mtimeStr` the rendering of the file's mtime used
by the fallback at lines 274-277 (file-system access is outside the
model).  The result is the assembled `RunSummary`, or the exception the
loop raises. -/
def parse_log_file (stem : Str) (lines : List Str) (verbose : Bool)
    (mtimeStr : Str) : Except Exc RunSummary := do
  let st0 : PlfState := ⟨[], [], [], [], .str [], [], 0, [], 0, false⟩
  let st ← plfLoop verbose st0 lines
  let run_date := if st.run_date = [] then mtimeStr else st.run_date
  pure
    { ghsa_id := stem
      current_risk := st.current_risk
      patch_risk := st.patch_risk
      reason := st.reason
      poc := st.poc
      model := st.model
      run_date := run_date
      mcp_total_calls := st.mcp_total_calls
      mcp_tool_counts := if verbose then st.mcp_tool_counts else []
      total_tokens := st.total_tokens
      done := st.done }

/-- One iteration of the `parse_log_details` loop
(`infra/logging/log_summary.py` lines 49-152). -/
def pldLine (st : LogDetails) (obj : Json) : Except Exc LogDetails := do
  let od ← match obj with
    | .obj od => pure od
    | _ => throw (.attributeError "object has no attribute get")
  let msg := dGet od "message".toList
  let payload_data := dGet od "payload".toList
  let payload : List (Str × Json) :=
    match payload_data with
    | .null => od
    | .obj pd => pd
    | _ => []
  -- msg == "run_started"
  let st :=
    if jeqStr msg "run_started" then
      match jAsStr (dGet payload "model".toList) with
      | some m => { st with model := if st.model ≠ [] then st.model else m }
      | none => st
    else st
  -- msg == "llm_input"
  let st :=
    if jeqStr msg "llm_input" then
      match jAsStr (dGet payload "model".toList) with
      | some m => { st with model := if st.model ≠ [] then st.model else m }
      | none => st
    else st
  -- msg == "ghsa_meta"
  let st ←
    if jeqStr msg "ghsa_meta" then
      let st := match jAsStr (dGet payload "ghsa".toList) with
        | some g => { st with ghsa_id := g }
        | none => st
      let vuln_j := pyOr (dGet payload "vulnerability".toList) (.obj [])
      match vuln_j with
      | .obj vd =>
          let st := match jAsStr (dGet vd "repo_url".toList) with
            | some u => { st with repo_url := u }
            | none => st
          let st := match jAsStr (dGet vd "commit".toList) with
            | some c => { st with commit := c }
            | none => st
          pure st
      | _ => throw (.attributeError "object has no attribute get")
    else pure st
  -- msg == "final_result"
  if jeqStr msg "final_result" then
    let res_j := pyOr (dGet payload "result".toList) (.obj [])
    let res ← match res_j with
      | .obj res => pure res
      | _ => throw (.attributeError "object has no attribute get")
    let st := match jAsStr (dGet res "model".toList) with
      | some m => { st with model := if st.model ≠ [] then st.model else m }
      | none => st
    let st := match jAsStr (dGet res "verdict".toList) with
      | some v => if st.current_risk = [] then { st with current_risk := v } else st
      | none => st
    let st := match jAsStr (dGet res "severity".toList) with
      | some v => if st.patch_risk = [] then { st with patch_risk := v } else st
      | none => st
    let st := match jAsStr (dGet res "rationale".toList) with
      | some v => if st.reason = [] then { st with reason := v } else st
      | none => st
    let pocT0 : Bool := match st.poc with
      | some p => !p.isEmpty
      | none => false
    let st := match jAsStr (dGet res "poc_idea".toList) with
      | some v => if !pocT0 then { st with poc := some v } else st
      | none => st
    let pocTruthy : Bool := match st.poc with
      | some p => !p.isEmpty
      | none => false
    if !(st.current_risk ≠ [] ∧ st.patch_risk ≠ [] ∧ st.reason ≠ [] ∧ pocTruthy) then
      match jAsStr (dGet res "raw_text".toList) with
      | some s =>
          if !(pyStrip s).isEmpty then
            match jloads s with
            | some (.obj jd) =>
                let st := match jAsStr (dGet jd "current_risk".toList) with
                  | some v => if st.current_risk = [] then { st with current_risk := v } else st
                  | none => st
                let st := match jAsStr (dGet jd "patch_risk".toList) with
                  | some v => if st.patch_risk = [] then { st with patch_risk := v } else st
                  | none => st
                let st := match jAsStr (dGet jd "reason".toList) with
                  | some v => if st.reason = [] then { st with reason := v } else st
                  | none => st
                let pocT : Bool := match st.poc with
                  | some p => !p.isEmpty
                  | none => false
                let st := match jAsStr (dGet jd "poc".toList) with
                  | some v => if !pocT then { st with poc := some v } else st
                  | none => st
                let st :=
                  if st.patch_risk = [] then
                    match jAsStr (dGet jd "severity".toList) with
                    | some v => { st with patch_risk := v }
                    | none => st
                  else st
                let st :=
                  if st.reason = [] then
                    match jAsStr (dGet jd "rationale".toList) with
                    | some v => { st with reason := v }
                    | none => st
                  else st
                let pocT2 : Bool := match st.poc with
                  | some p => !p.isEmpty
                  | none => false
                if !pocT2 then
                  match jAsStr (dGet jd "poc_idea".toList) with
                  | some v => pure { st with poc := some v }
                  | none => pure st
                else pure st
            | _ => pure st
          else pure st
      | none => pure st
    else pure st
  else
    pure st

/-- The line loop of `parse_log_details`. -/
def pldLoop (st : LogDetails) : List Str → Except Exc LogDetails
  | [] => .ok st
  | line :: rest =>
      match jloads line with
      | none => pldLoop st rest
      | some obj => do
          let st' ← pldLine st obj
          pldLoop st' rest

/-- `parse_log_details` (`infra/logging/log_summary.py` lines 35-152):
`stem` is `fp.stem`. -/
def parse_log_details (stem : Str) (lines : List Str) : Except Exc LogDetails :=
  pldLoop ⟨stem, [], [], [], [], [], [], none⟩ lines

/-- Well-formedness of a JSON value as produced by `jloads`: every
object has pairwise-distinct keys (Python dicts cannot hold
duplicates). -/
inductive WF : Json → Prop where
  | null : WF .null
  | bool (b : Bool) : WF (.bool b)
  | num (n : Int) : WF (.num n)
  | str (s : Str) : WF (.str s)
  | arr (l : List Json) : (∀ x ∈ l, WF x) → WF (.arr l)
  | obj (d : List (Str × Json)) : (∀ p ∈ d, WF p.2) →
      (d.map Prod.fst).Nodup → WF (.obj d)

mutual

/-- Fuel sufficient for `parseVal` to parse the serialization of a
value. -/
def needF : Json → Nat
  | .null => 1
  | .bool _ => 1
  | .num _ => 1
  | .str _ => 1
  | .arr l => 1 + needI l
  | .obj d => 1 + needP d

/-- Fuel sufficient for `parseItems` on serialized items. -/
def needI : List Json → Nat
  | [] => 0
  | x :: xs => needF x + needI xs + 1

/-- Fuel sufficient for `parsePairs` on serialized members. -/
def needP : List (Str × Json) → Nat
  | [] => 0
  | p :: ps => needF p.2 + needP ps + 1

end

/-- The input following a serialized number must not extend the numeral
(inside a serialized document it is `,`, `]`, `\x7d` or the end). -/
def numStop : Str → Prop
  | [] => True
  | c :: _ => ¬c.isDigit = true ∧ c ≠ '.' ∧ c ≠ 'e' ∧ c ≠ 'E'

/-- Folding `insertPair` over a member list, as `parsePairs` does. -/
def insertAll (acc : List (Str × Json)) (l : List (Str × Json)) :
    List (Str × Json) :=
  l.foldl (fun a p => insertPair a p.1 p.2) acc

/-- Replace the `cleanup()` behaviour of whatever context
`start_servers` returns (used to compare runs that differ only in how
cleanup behaves). -/
def withCleanup (p : Ports) (c : Except Exc Unit) : Ports :=
  { p with start_servers := fun cw pw tok =>
      (p.start_servers cw pw tok).map (fun ctx => { ctx with cleanup_result := c }) }

/-- The mock LLM response of the spec's Scenario 1. -/
def mockLLMJson : Str :=
  "\x7b\"patch_risk\":\"good\",\"current_risk\":\"good\",\"reason\":\"Mock LLM response\"\x7d".toList

/-- Its re-serialization by `extract` (default `json.dumps`
separators). -/
def mockExtracted : Str :=
  "\x7b\"patch_risk\": \"good\", \"current_risk\": \"good\", \"reason\": \"Mock LLM response\"\x7d".toList

/-- The parsed members of `mockLLMJson`. -/
def mockDict : List (Str × Json) :=
  [("patch_risk".toList, .str "good".toList),
   ("current_risk".toList, .str "good".toList),
   ("reason".toList, .str "Mock LLM response".toList)]

/-- Concrete ports in the style of the test suite's fakes
(`tests/mispatch_finder/core/test_services.py`): every step succeeds
and the LLM returns the mock JSON. -/
def mockPorts : Ports :=
  { fetch_metadata := fun g =>
      .ok { ghsa_id := g, repository := { owner := "test".toList, name := "repo".toList },
            commit_hash := "c2".toList, cve_id := none, summary := none,
            severity := some "HIGH".toList }
    prepare_workdirs := fun _ _ _ => .ok (some "wd-current".toList, some "wd-previous".toList)
    get_diff := fun _ _ => .ok "diff --git a/f b/f".toList
    start_servers := fun cw pw _ =>
      .ok { local_url := "http://127.0.0.1:18080".toList,
            public_url := "https://test.example.com".toList,
            has_current := cw.isSome, has_previous := pw.isSome,
            cleanup_result := .ok () }
    llm_call := fun _ _ _ => .ok mockLLMJson
    token := "fake-token-xyz".toList
    max_chars := 1000 }

/-- The `start_servers` run of the spec's Scenario 5: streamable-http
transport, port 18080, tunnelling requested, and a tunnel that
establishes successfully. -/
def c2run : Except Exc MCPInfraCtx × List MCPEvent :=
  MCPServer.start_servers (.ok "https://abc.lhr.life".toList)
    (some "wd-current".toList) (some "wd-previous".toList)
    "tok".toList "streamable-http" (some 18080) true

/-- An Anthropic response whose final content has no text-type block
(e.g. only tool-use blocks). -/
def c8msg : AnthropicMessage :=
  { content := [.nonText "tool_use"], usage := none,
    reprStr := "BetaMessage(id=msg_1)".toList }

/-- An OpenAI response with empty `output_text`. -/
def c8resp : OpenAIResponse :=
  { output_text := [], usage := none, reprStr := "Response(id=resp_1)".toList }

/-! ## Theorems -/

/-- C1.  For every invocation of `AnalysisOrchestrator.analyze` —
whether it completes successfully, fails because the GHSA is not found,
fails during repository preparation or diff generation, or fails during
the LLM call — the MCP context's `cleanup()` is invoked exactly once if
and only if the context was created (`finally` semantics), and zero
times otherwise; this holds regardless of which step raised. -/
theorem analyze_cleanup_exactly_once (p : Ports) (ghsa : Str) (force : Bool) :
    (analyze p ghsa force).cleanup_calls =
      if reachesServers p ghsa force then 1 else 0 := by
  unfold analyze reachesServers
  rcases hf : p.fetch_metadata ghsa with e | vuln
  · simp [hf, finalizeRun]
  · rcases hp : p.prepare_workdirs vuln.repository.url vuln.commit_hash force with e | ⟨cur, prev⟩
    · simp [hf, hp, finalizeRun]
    · rcases hd : generateDiffStep p (cur <|> prev) vuln.commit_hash with e | dr
      · simp [hf, hp, hd, finalizeRun]
      · rcases hs : p.start_servers cur prev p.token with e | ctx
        · simp [hf, hp, hd, hs, finalizeRun]
        · rcases hl : p.llm_call
              (build_prompt ghsa vuln.repository.url vuln.commit_hash
                ctx.has_previous ctx.has_current dr.truncated_text)
              (ctx.public_url ++ ['/', 'm', 'c', 'p']) p.token with e | raw
          all_goals rcases hc : ctx.cleanup_result with e' | u
          all_goals simp [hf, hp, hd, hs, hl, hc, finalizeRun]

/-- C10.  An exception raised by `cleanup()` itself is caught inside the
`finally` block and logged as `mcp_cleanup_error`: runs that differ only
in how cleanup behaves have identical outcomes (same returned
`AnalysisResult` on success, same propagated exception on failure), and
when the context was created and cleanup raised, the failure was
logged. -/
theorem analyze_cleanup_error_harmless (p : Ports) (ghsa : Str) (force : Bool)
    (e : Exc) :
    ((analyze (withCleanup p (.error e)) ghsa force).outcome
      = (analyze (withCleanup p (.ok ())) ghsa force).outcome)
    ∧ (reachesServers (withCleanup p (.error e)) ghsa force = true →
        "mcp_cleanup_error" ∈ (analyze (withCleanup p (.error e)) ghsa force).log) := by
  have hfetch : ∀ c, (withCleanup p c).fetch_metadata = p.fetch_metadata := fun _ => rfl
  have hprep : ∀ c, (withCleanup p c).prepare_workdirs = p.prepare_workdirs := fun _ => rfl
  have htok : ∀ c, (withCleanup p c).token = p.token := fun _ => rfl
  have hgd : ∀ c wd cm, generateDiffStep (withCleanup p c) wd cm
      = generateDiffStep p wd cm := fun _ _ _ => rfl
  have hss : ∀ c cw pw tok, (withCleanup p c).start_servers cw pw tok
      = (p.start_servers cw pw tok).map (fun ctx => { ctx with cleanup_result := c }) :=
    fun _ _ _ _ => rfl
  have hllm : ∀ c, (withCleanup p c).llm_call = p.llm_call := fun _ => rfl
  unfold analyze reachesServers
  simp only [hfetch, hprep, htok, hgd, hss, hllm]
  rcases hf : p.fetch_metadata ghsa with e0 | vuln
  · simp [hf, finalizeRun]
  rcases hp : p.prepare_workdirs vuln.repository.url vuln.commit_hash force with e0 | ⟨cur, prev⟩
  · simp [hf, hp, finalizeRun]
  rcases hd : generateDiffStep p (cur <|> prev) vuln.commit_hash with e0 | dr
  · simp [hf, hp, hd, finalizeRun]
  rcases hs : p.start_servers cur prev p.token with e0 | ctx
  · simp [hf, hp, hd, hs, finalizeRun, Except.map]
  rcases hl : p.llm_call
      (build_prompt ghsa vuln.repository.url vuln.commit_hash
        ctx.has_previous ctx.has_current dr.truncated_text)
      (ctx.public_url ++ ['/', 'm', 'c', 'p']) p.token with e0 | raw
  all_goals simp [hf, hp, hd, hs, hl, finalizeRun, Except.map]

/-- C5.  `analyze` populates the `AnalysisResult` from the extracted
JSON without raising: when the extracted text parses as a JSON dict the
string-valued fields are aliased `current_risk` to `verdict`,
`patch_risk` to `severity`, `reason` to `rationale` (falling back to
`rationale`), `poc` to `poc_idea` (falling back to `poc_idea`); when
parsing fails, every structured field is absent and only `raw_text` is
populated; and on the mock response of Scenario 1 the full `analyze`
run returns verdict `good`, severity `good`, rationale
`Mock LLM response` and the input GHSA id. -/
theorem analyze_result_population :
    (∀ (g ext : Str) (d : List (Str × Json)), jloads ext = some (.obj d) →
      (resultFromLLM g ext).verdict = getStrField d "current_risk".toList
      ∧ (resultFromLLM g ext).severity = getStrField d "patch_risk".toList
      ∧ (resultFromLLM g ext).rationale
          = ((getStrField d "reason".toList).orElse (fun _ => getStrField d "rationale".toList))
      ∧ (resultFromLLM g ext).poc_idea
          = ((getStrField d "poc".toList).orElse (fun _ => getStrField d "poc_idea".toList))
      ∧ (resultFromLLM g ext).ghsa = g
      ∧ (resultFromLLM g ext).raw_text = some ext)
    ∧ (∀ (g ext : Str), jloads ext = none →
      (resultFromLLM g ext).verdict = none ∧ (resultFromLLM g ext).severity = none
      ∧ (resultFromLLM g ext).rationale = none ∧ (resultFromLLM g ext).evidence = none
      ∧ (resultFromLLM g ext).poc_idea = none
      ∧ (resultFromLLM g ext).raw_text = some ext)
    ∧ (analyze mockPorts "GHSA-TEST-0001".toList false).outcome
        = .ok { ghsa := "GHSA-TEST-0001".toList, provider := [], model := [],
                verdict := some "good".toList, severity := some "good".toList,
                rationale := some "Mock LLM response".toList, evidence := none,
                poc_idea := none, raw_text := some mockExtracted } := by
  refine ⟨?_, ?_, ?_⟩
  · intro g ext d h
    refine ⟨by simp [resultFromLLM, h], by simp [resultFromLLM, h], ?_, ?_,
      by simp [resultFromLLM, h], by simp [resultFromLLM, h]⟩
    · rcases hr : getStrField d ['r', 'e', 'a', 's', 'o', 'n'] with _ | r <;>
        simp [resultFromLLM, h, hr, Option.orElse]
    · rcases hr : getStrField d ['p', 'o', 'c'] with _ | pc <;>
        simp [resultFromLLM, h, hr, Option.orElse]
  · intro g ext h
    simp [resultFromLLM, h]
  · rfl

/-- Witness for C5 at concrete inputs: the mock response yields verdict
`good`, and prose with no JSON leaves the verdict absent. -/
theorem analyze_result_population_witness :
    (resultFromLLM "GHSA-TEST-0001".toList mockLLMJson).verdict = some "good".toList
    ∧ (resultFromLLM "x".toList "no json here".toList).verdict = none := by
  have h1 := analyze_result_population.1 "GHSA-TEST-0001".toList mockLLMJson mockDict (by rfl)
  have h2 := analyze_result_population.2.1 "x".toList "no json here".toList (by rfl)
  exact ⟨h1.1.trans (by rfl), h2.1⟩

/-- Witness for C10 at a concrete run: every step succeeds, cleanup
raises, the failure is logged. -/
theorem analyze_cleanup_error_harmless_witness :
    reachesServers (withCleanup mockPorts (.error (.runtimeError "boom")))
      "GHSA-TEST-0001".toList false = true
    ∧ "mcp_cleanup_error" ∈
        (analyze (withCleanup mockPorts (.error (.runtimeError "boom")))
          "GHSA-TEST-0001".toList false).log := by
  have h := analyze_cleanup_error_harmless mockPorts "GHSA-TEST-0001".toList false
    (.runtimeError "boom")
  exact ⟨rfl, h.2 rfl⟩

/-- C3 counterexample.  With `max_chars = 100` and a 101-character diff,
`generate_diff` produces `included_len = 105 > 101 = full_len`: the
claimed invariant `included_len ≤ full_len` (and a fortiori the claimed
strict inequality under truncation) is false. -/
theorem generate_diff_included_le_full_cex :
    ¬((DiffService.generate_diff 100 (List.replicate 101 'a')).included_len
      ≤ (DiffService.generate_diff 100 (List.replicate 101 'a')).full_len) := by
  decide

/-- Under truncation with a positive budget, the included length is
exactly the budget plus the marker length. -/
theorem generate_diff_trunc_len (max_chars : Nat) (full_text : Str)
    (h : max_chars < full_text.length) (h1 : 1 ≤ max_chars) :
    (DiffService.generate_diff max_chars full_text).included_len
      = max_chars + truncMarker.length := by
  have hgt : full_text.length > max_chars := h
  have hhead : (full_text.take (max_chars / 2)).length = max_chars / 2 := by
    simp [List.length_take]
    omega
  have hk : max_chars - (full_text.take (max_chars / 2)).length
      = max_chars - max_chars / 2 := by rw [hhead]
  have hkpos : max_chars - max_chars / 2 ≠ 0 := by omega
  have htail : (pyLastSlice full_text (max_chars - max_chars / 2)).length
      = max_chars - max_chars / 2 := by
    unfold pyLastSlice
    rw [if_neg hkpos]
    simp [List.length_drop]
    omega
  simp only [DiffService.generate_diff, if_pos hgt]
  simp only [List.length_append, hhead, hk, htail, truncMarker]
  simp
  omega


/-- C3 amended.  `included_len` always equals `len(truncated_text)`;
without truncation (`full_len ≤ max_chars`) it equals `full_len`; under
truncation (`full_len > max_chars`) `was_truncated` is true and, for
`max_chars ≥ 1`, `included_len = max_chars + 5` (head plus marker plus
tail), so `included_len < full_len` holds exactly when
`full_len > max_chars + 5`. -/
theorem generate_diff_len_invariant (max_chars : Nat) (full_text : Str) :
    (DiffService.generate_diff max_chars full_text).included_len
      = (DiffService.generate_diff max_chars full_text).truncated_text.length
    ∧ (full_text.length ≤ max_chars →
        (DiffService.generate_diff max_chars full_text).included_len = full_text.length
        ∧ (DiffService.generate_diff max_chars full_text).was_truncated = false)
    ∧ (max_chars < full_text.length →
        (DiffService.generate_diff max_chars full_text).was_truncated = true
        ∧ (1 ≤ max_chars →
            (DiffService.generate_diff max_chars full_text).included_len
              = max_chars + truncMarker.length)) := by
  by_cases h : full_text.length > max_chars
  · exact ⟨by simp [DiffService.generate_diff, h], fun hle => absurd hle (by omega),
      fun _ => ⟨by simp [DiffService.generate_diff, h],
        fun h1 => generate_diff_trunc_len max_chars full_text h h1⟩⟩
  · refine ⟨by simp [DiffService.generate_diff, h], fun _ => ?_, fun hlt => absurd hlt (by omega)⟩
    exact ⟨by simp [DiffService.generate_diff, h], by simp [DiffService.generate_diff, h]⟩

/-- Witness for the amended C3 at `max_chars = 100` on a 101-character
diff: truncated, and `included_len = 105`. -/
theorem generate_diff_len_invariant_witness :
    (DiffService.generate_diff 100 (List.replicate 101 'a')).was_truncated = true
    ∧ (DiffService.generate_diff 100 (List.replicate 101 'a')).included_len = 105 := by
  have h := (generate_diff_len_invariant 100 (List.replicate 101 'a')).2.2 (by decide)
  exact ⟨h.1, (h.2 (by decide)).trans (by decide)⟩

/-- C4 counterexample.  For `max_chars = 0` and the one-character diff
`"a"`, Python's tail slice `full_text[-(0):]` is the whole string, so
the truncated text is `"\n...\na"` of length 6, exceeding
`max_chars + len(marker) = 5`: the claimed combined-length bound fails
at `max_chars = 0`. -/
theorem generate_diff_bound_cex :
    ¬((DiffService.generate_diff 0 ['a']).included_len ≤ 0 + truncMarker.length) := by
  decide

/-- C4 amended.  If `len(full_text) ≤ max_chars` the text is returned
unchanged and `was_truncated` is false; otherwise the truncated text is
exactly `full_text[:max_chars//2]` joined by the `"\n...\n"` marker to
the Python slice `full_text[-(max_chars - len(head)):]`, and — for
`max_chars ≥ 1` (for `max_chars = 0` that tail slice is the whole
string) — the combined included length never exceeds
`max_chars + len(marker)`. -/
theorem generate_diff_truncation_policy (max_chars : Nat) (full_text : Str) :
    (full_text.length ≤ max_chars →
      (DiffService.generate_diff max_chars full_text).truncated_text = full_text
      ∧ (DiffService.generate_diff max_chars full_text).was_truncated = false)
    ∧ (max_chars < full_text.length →
      (DiffService.generate_diff max_chars full_text).truncated_text
        = full_text.take (max_chars / 2) ++ truncMarker
          ++ pyLastSlice full_text (max_chars - (full_text.take (max_chars / 2)).length)
      ∧ (1 ≤ max_chars →
          (DiffService.generate_diff max_chars full_text).included_len
            ≤ max_chars + truncMarker.length)) := by
  by_cases h : full_text.length > max_chars
  · refine ⟨fun hle => absurd hle (by omega), fun _ => ⟨by simp [DiffService.generate_diff, h], fun h1 => ?_⟩⟩
    have := generate_diff_trunc_len max_chars full_text (by omega) h1
    omega
  · exact ⟨fun _ => ⟨by simp [DiffService.generate_diff, h], by simp [DiffService.generate_diff, h]⟩,
      fun hlt => absurd hlt (by omega)⟩

/-- Witness for the amended C4: a 16-character diff with
`max_chars = 10` truncates to `"abcde\n...\nlmnop"`, within the
bound. -/
theorem generate_diff_truncation_policy_witness :
    (DiffService.generate_diff 10 "abcdefghijklmnop".toList).truncated_text
      = "abcde\n...\nlmnop".toList
    ∧ (DiffService.generate_diff 10 "abcdefghijklmnop".toList).included_len ≤ 15 := by
  have h := (generate_diff_truncation_policy 10 "abcdefghijklmnop".toList).2 (by decide)
  exact ⟨h.1.trans (by decide), h.2 (by decide)⟩

/-- C2.  In the Scenario-5 run (`streamable-http`, tunnelling on, tunnel
established), `start_servers` raises `TypeError` while constructing its
`MCPServerContext` — the dataclass in `core/ports.py` has no `transport`
field — after the tunnel action had already happened, and no
tunnel-stop action ever happens: the exception propagates with the
tunnel left running (the cleanup closure that would stop it is defined
only after this construction, and the orchestrator's `finally` skips
cleanup because no context was returned). -/
theorem start_servers_tunnel_leak :
    c2run.1 = .error (.typeError "MCPServerContext.__init__ got an unexpected keyword argument")
    ∧ MCPEvent.tunnelStarted ∈ c2run.2
    ∧ MCPEvent.tunnelStopped ∉ c2run.2 := by
  refine ⟨rfl, by decide, by decide⟩

/-- C8 counterexample.  An Anthropic response with no text-type content
block makes `run` return `str(message)` — a non-empty SDK rendering —
not the empty string the claim states. -/
theorem adapter_no_text_blocks_cex :
    (AnthropicHostedMCPAdapter.run c8msg).text = "BetaMessage(id=msg_1)".toList
    ∧ (AnthropicHostedMCPAdapter.run c8msg).text ≠ [] := by
  exact ⟨rfl, by decide⟩

/-- C8 amended.  Each adapter returns the concatenation of the
text-type content blocks when at least one exists; with none it falls
back to the SDK object's string rendering (`str(message)` /
`str(response)`), not the empty string; and absent token-usage data
never causes a raise — the usage fields are simply `None`. -/
theorem adapter_text_and_usage (m : AnthropicMessage) (r : OpenAIResponse) :
    (textBlocks m.content ≠ [] →
      (AnthropicHostedMCPAdapter.run m).text = (textBlocks m.content).foldr (· ++ ·) [])
    ∧ (textBlocks m.content = [] →
        (AnthropicHostedMCPAdapter.run m).text = m.reprStr)
    ∧ (m.usage = none →
        (AnthropicHostedMCPAdapter.run m).usage = some ⟨none, none, none⟩)
    ∧ (r.output_text ≠ [] → (OpenAIHostedMCPAdapter.run r).text = r.output_text)
    ∧ (r.output_text = [] → (OpenAIHostedMCPAdapter.run r).text = r.reprStr)
    ∧ (r.usage = none → (OpenAIHostedMCPAdapter.run r).usage = none) := by
  refine ⟨?_, ?_, ?_, ?_, ?_, ?_⟩
  · intro h
    rcases htb : textBlocks m.content with _ | ⟨t, ts⟩
    · exact absurd htb h
    · simp [AnthropicHostedMCPAdapter.run, htb]
  · intro h
    simp [AnthropicHostedMCPAdapter.run, h]
  · intro h
    simp [AnthropicHostedMCPAdapter.run, h]
  · intro h
    rcases ho : r.output_text with _ | ⟨c, cs⟩
    · exact absurd ho h
    · simp [OpenAIHostedMCPAdapter.run, ho]
  · intro h
    simp [OpenAIHostedMCPAdapter.run, h]
  · intro h
    simp [OpenAIHostedMCPAdapter.run, h]

/-- Witness for the amended C8 at concrete responses: text fallback to
the SDK rendering on the Anthropic side, `output_text` fallback on the
OpenAI side, and `None` usage fields without raising. -/
theorem adapter_text_and_usage_witness :
    (AnthropicHostedMCPAdapter.run c8msg).text = c8msg.reprStr
    ∧ (AnthropicHostedMCPAdapter.run c8msg).usage = some ⟨none, none, none⟩
    ∧ (OpenAIHostedMCPAdapter.run c8resp).text = c8resp.reprStr := by
  have h := adapter_text_and_usage c8msg c8resp
  exact ⟨h.2.1 rfl, h.2.2.1 rfl, h.2.2.2.2.1 rfl⟩

/-- C9.  A log line that is valid JSON but not an object — here
`[1, 2]` — makes both `parse_log_file` and `parse_log_details` raise
`AttributeError` at `obj.get("message")` instead of being skipped: the
summarizer does not tolerate such lines. -/
theorem log_summarizer_raises :
    parse_log_file "GHSA-TEST".toList ["[1, 2]".toList] false "2024-01-01".toList
      = .error (.attributeError "object has no attribute get")
    ∧ parse_log_details "GHSA-TEST".toList ["[1, 2]".toList]
      = .error (.attributeError "object has no attribute get") := by
  exact ⟨rfl, rfl⟩

/-- The fallback behaviour of `extract`: in every no-brace, wrong-order
or parse-failure situation the text comes back unchanged. -/
theorem extract_unchanged (t : Str)
    (h : pyFind t '{' = -1 ∨ pyRfind t '}' = -1 ∨ pyRfind t '}' ≤ pyFind t '{'
      ∨ jloads (pySliceCore t (pyFind t '{').toNat ((pyRfind t '}').toNat + 1)) = none) :
    JsonExtractor.extract t = t := by
  unfold JsonExtractor.extract
  by_cases hc : pyFind t '{' = -1 ∨ pyRfind t '}' = -1 ∨ pyRfind t '}' ≤ pyFind t '{'
  · rw [if_pos hc]
  · rw [if_neg hc]
    rcases h with h | h | h | h
    · exact absurd (Or.inl h) hc
    · exact absurd (Or.inr (Or.inl h)) hc
    · exact absurd (Or.inr (Or.inr h)) hc
    · simp only [h]

/-- C6.  `extract` is a total function of the input text (the model has
no failure path), and whenever the text has no `\x7b`, no `\x7d`, the
last `\x7d` not after the first `\x7b`, or a delimited substring that
fails to parse as JSON, it returns the text unchanged. -/
theorem extract_fallback (t : Str)
    (h : pyFind t '{' = -1 ∨ pyRfind t '}' = -1 ∨ pyRfind t '}' ≤ pyFind t '{'
      ∨ jloads (pySliceCore t (pyFind t '{').toNat ((pyRfind t '}').toNat + 1)) = none) :
    JsonExtractor.extract t = t :=
  extract_unchanged t h

/-- Witness for C6: the empty string and a brace-unbalanced string both
come back unchanged. -/
theorem extract_fallback_witness :
    JsonExtractor.extract [] = []
    ∧ JsonExtractor.extract "unbalanced \x7b\x7b\x7b".toList
        = "unbalanced \x7b\x7b\x7b".toList := by
  refine ⟨extract_fallback [] (Or.inl rfl), extract_fallback _ (Or.inr (Or.inl rfl))⟩

/-! ### Round-trip lemmas for the JSON model (towards C7) -/

/-- A character that is not JSON whitespace passes `skipWs`
untouched. -/
theorem skipWs_cons_of_not_ws {c : Char} (h : isJws c = false) (cs : Str) :
    skipWs (c :: cs) = c :: cs := by
  simp [skipWs, h]

/-- `parseVal` ignores one leading space. -/
theorem parseVal_cons_space (f : Nat) (cs : Str) :
    parseVal f (' ' :: cs) = parseVal f cs := by
  cases f with
  | zero => rfl
  | succ g => rfl

/-- `parseItems` ignores one leading space. -/
theorem parseItems_cons_space (f : Nat) (cs : Str) :
    parseItems f (' ' :: cs) = parseItems f cs := by
  cases f with
  | zero => rfl
  | succ g => simp only [parseItems, parseVal_cons_space]

/-- `parsePairs` ignores one leading space. -/
theorem parsePairs_cons_space (f : Nat) (acc : List (Str × Json)) (cs : Str) :
    parsePairs f acc (' ' :: cs) = parsePairs f acc cs := by
  cases f with
  | zero => rfl
  | succ g => rfl

/-- A comma cannot extend a numeral. -/
theorem numStop_comma (xs : Str) : numStop (',' :: xs) :=
  ⟨by decide, by decide, by decide, by decide⟩

/-- A closing bracket cannot extend a numeral. -/
theorem numStop_rbracket (xs : Str) : numStop (']' :: xs) :=
  ⟨by decide, by decide, by decide, by decide⟩

/-- A closing brace cannot extend a numeral. -/
theorem numStop_rbrace (xs : Str) : numStop ('}' :: xs) :=
  ⟨by decide, by decide, by decide, by decide⟩

/-- Reading back a hexadecimal digit below 16. -/
theorem hexVal_hexDigitChar : ∀ m, m < 16 → hexVal (hexDigitChar m) = some m := by
  decide

/-- Decimal digit read-back below 10. -/
theorem digitChar_sub_48 : ∀ m, m < 10 → (Nat.digitChar m).toNat - 48 = m := by
  decide

/-- Digit characters of `Nat.digitChar` below 10 are digits. -/
theorem digitChar_isDigit : ∀ m, m < 10 → (Nat.digitChar m).isDigit = true := by
  decide

/-- `natToChars` is never empty. -/
theorem natToChars_ne_nil (n : Nat) : natToChars n ≠ [] := by
  rw [natToChars]
  split <;> simp

/-- Every character `natToChars` produces is a decimal digit. -/
theorem natToChars_digits : ∀ n, ∀ c ∈ natToChars n, c.isDigit = true := by
  intro n
  induction n using Nat.strong_induction_on with
  | _ n ih =>
    rw [natToChars]
    split
    · intro c hc
      simp at hc
      subst hc
      exact digitChar_isDigit _ (by omega)
    · intro c hc
      rw [List.mem_append] at hc
      rcases hc with hc | hc
      · exact ih (n / 10) (Nat.div_lt_self (by omega) (by omega)) c hc
      · simp at hc
        subst hc
        exact digitChar_isDigit _ (Nat.mod_lt _ (by omega))

/-- The leading digit of `natToChars n` is nonzero for `n ≥ 1`. -/
theorem natToChars_head_ne_zero :
    ∀ n, 1 ≤ n → ∀ c cs, natToChars n = c :: cs → c ≠ '0' := by
  intro n
  induction n using Nat.strong_induction_on with
  | _ n ih =>
    intro hn c cs hc
    rw [natToChars] at hc
    split at hc
    · simp at hc
      obtain ⟨h1, -⟩ := hc
      subst h1
      interval_cases n <;> decide
    · rcases he : natToChars (n / 10) with _ | ⟨d, ds⟩
      · exact absurd he (natToChars_ne_nil _)
      · rw [he, List.cons_append] at hc
        injection hc with h1 h2
        exact h1 ▸ ih (n / 10) (Nat.div_lt_self (by omega) (by omega)) (by omega) d ds he

/-- `digitsVal` consumes exactly a leading all-digit run when what
follows cannot extend it. -/
theorem digitsVal_append (ds : Str) (hds : ∀ c ∈ ds, c.isDigit = true) :
    ∀ (acc : Nat) (rest : Str),
      (∀ c cs, rest = c :: cs → c.isDigit = false) →
      digitsVal acc (ds ++ rest)
        = (ds.foldl (fun a c => a * 10 + (c.toNat - 48)) acc, rest) := by
  induction ds with
  | nil =>
    intro acc rest hrest
    rcases rest with _ | ⟨c, cs⟩
    · rfl
    · simp [digitsVal, hrest c cs rfl]
  | cons d ds ih =>
    intro acc rest hrest
    have hd : d.isDigit = true := hds d (by simp)
    simp only [List.cons_append, digitsVal, hd, if_pos]
    exact ih (fun c hc => hds c (by simp [hc])) _ rest hrest

/-- Reading the decimal digits of `n` back under a fold accumulator. -/
theorem natToChars_foldl (n : Nat) :
    ∀ acc, (natToChars n).foldl (fun a c => a * 10 + (c.toNat - 48)) acc
      = acc * 10 ^ (natToChars n).length + n := by
  induction n using Nat.strong_induction_on with
  | _ n ih =>
    intro acc
    rw [natToChars]
    split
    · simp [digitChar_sub_48 n (by omega)]
      try omega
    · rw [List.foldl_append, List.length_append]
      rw [ih (n / 10) (Nat.div_lt_self (by omega) (by omega))]
      simp [digitChar_sub_48 (n % 10) (Nat.mod_lt _ (by omega))]
      rw [pow_succ]
      have h10 : 10 * (n / 10) + n % 10 = n := by omega
      ring_nf
      omega

/-- `parseUNum` parses back the decimal digits of `n` exactly. -/
theorem parseUNum_natToChars (n : Nat) (rest : Str) (hrest : numStop rest) :
    parseUNum (natToChars n ++ rest) = some (n, rest) := by
  have hguard : intOnlyGuard n rest = some (n, rest) := by
    rcases rest with _ | ⟨c, cs⟩
    · rfl
    · obtain ⟨-, h2, h3, h4⟩ := hrest
      simp [intOnlyGuard, h2, h3, h4]
  have hrest' : ∀ c cs, rest = c :: cs → c.isDigit = false := by
    intro c cs hr
    subst hr
    obtain ⟨h1, -⟩ := hrest
    exact Bool.not_eq_true _ ▸ (by simpa using h1)
  rcases hn : n with _ | m
  · rw [show natToChars 0 = ['0'] by rw [natToChars]; decide]
    rcases rest with _ | ⟨c, cs⟩
    · rfl
    · obtain ⟨-, h2, h3, h4⟩ := hrest
      simp [parseUNum, intOnlyGuard, h2, h3, h4]
  · subst hn
    rcases he : natToChars (m + 1) with _ | ⟨c, cs⟩
    · exact absurd he (natToChars_ne_nil _)
    · have hcd : c.isDigit = true := natToChars_digits _ c (by rw [he]; simp)
      have hc0 : c ≠ '0' := natToChars_head_ne_zero _ (by omega) c cs he
      have hall : ∀ x ∈ cs, x.isDigit = true := by
        intro x hx
        exact natToChars_digits (m + 1) x (by rw [he]; simp [hx])
      simp only [List.cons_append, parseUNum, hc0, if_neg, hcd, if_pos]
      rw [digitsVal_append cs hall _ rest hrest']
      have hfold : (natToChars (m + 1)).foldl (fun a c => a * 10 + (c.toNat - 48)) 0
          = m + 1 := by
        rw [natToChars_foldl]
        omega
      rw [he] at hfold
      simp only [List.foldl_cons] at hfold
      simp only [Nat.zero_mul, Nat.zero_add] at hfold
      rw [hfold]
      exact hguard

/-- `parseNumBody` parses back `json.dumps`'s integer rendering. -/
theorem parseNumBody_intToChars (i : Int) (rest : Str) (hrest : numStop rest) :
    parseNumBody (intToChars i ++ rest) = some (i, rest) := by
  unfold intToChars
  split
  · rw [List.cons_append, parseNumBody, if_pos rfl]
    rw [parseUNum_natToChars _ rest hrest]
    simp only [Option.map_some', Option.some.injEq, Prod.mk.injEq]
    exact ⟨by omega, trivial⟩
  · rcases he : natToChars i.toNat with _ | ⟨c, cs⟩
    · exact absurd he (natToChars_ne_nil _)
    · have hcd : c.isDigit = true := natToChars_digits _ c (by rw [he]; simp)
      have hcm : c ≠ '-' := by
        intro h
        rw [h] at hcd
        exact absurd hcd (by decide)
      rw [List.cons_append]
      show (if c = '-' then _ else (parseUNum (c :: (cs ++ rest))).map
        (fun p => ((p.1 : Int), p.2))) = _
      rw [if_neg hcm, ← List.cons_append, ← he, parseUNum_natToChars _ rest hrest]
      simp only [Option.map_some', Option.some.injEq, Prod.mk.injEq]
      exact ⟨by omega, trivial⟩

/-- `parseStrBody` inverts `escStr`: the serialized body of a string
followed by the closing quote parses back to the string. -/
theorem parseStrBody_escStr : ∀ (s rest : Str),
    parseStrBody (escStr s ++ '"' :: rest) = some (s, rest) := by
  intro s
  induction s with
  | nil =>
    intro rest
    show parseStrBody ('"' :: rest) = _
    rw [parseStrBody.eq_def]
    simp
  | cons c cs ih =>
    intro rest
    have hesc : escStr (c :: cs) = escChar c ++ escStr cs := rfl
    rw [hesc, List.append_assoc]
    by_cases h1 : c = '"'
    · subst h1
      show parseStrBody ('\\' :: '"' :: (escStr cs ++ '"' :: rest)) = _
      rw [parseStrBody.eq_def]
      simp [escTable, ih rest]
    · by_cases h2 : c = '\\'
      · subst h2
        show parseStrBody ('\\' :: '\\' :: (escStr cs ++ '"' :: rest)) = _
        rw [parseStrBody.eq_def]
        simp [escTable, ih rest]
      · by_cases h3 : c = '\n'
        · subst h3
          show parseStrBody ('\\' :: 'n' :: (escStr cs ++ '"' :: rest)) = _
          rw [parseStrBody.eq_def]
          simp [escTable, ih rest]
        · by_cases h4 : c = '\r'
          · subst h4
            show parseStrBody ('\\' :: 'r' :: (escStr cs ++ '"' :: rest)) = _
            rw [parseStrBody.eq_def]
            simp [escTable, ih rest]
          · by_cases h5 : c = '\t'
            · subst h5
              show parseStrBody ('\\' :: 't' :: (escStr cs ++ '"' :: rest)) = _
              rw [parseStrBody.eq_def]
              simp [escTable, ih rest]
            · by_cases h6 : c.toNat = 8
              · have hc : escChar c = ['\\', 'b'] := by
                  simp [escChar, h1, h2, h3, h4, h5, h6]
                rw [hc]
                show parseStrBody ('\\' :: 'b' :: (escStr cs ++ '"' :: rest)) = _
                have hcb : Char.ofNat 8 = c := by
                  rw [← h6, Char.ofNat_toNat]
                rw [parseStrBody.eq_def]
                simp [escTable, ih rest]
                exact hcb
              · by_cases h7 : c.toNat = 12
                · have hc : escChar c = ['\\', 'f'] := by
                    simp [escChar, h1, h2, h3, h4, h5, h6, h7]
                  rw [hc]
                  show parseStrBody ('\\' :: 'f' :: (escStr cs ++ '"' :: rest)) = _
                  have hcb : Char.ofNat 12 = c := by
                    rw [← h7, Char.ofNat_toNat]
                  rw [parseStrBody.eq_def]
                  simp [escTable, ih rest]
                  exact hcb
                · by_cases h8 : c.toNat < 0x20
                  · have hc : escChar c
                        = ['\\', 'u', '0', '0', hexDigitChar (c.toNat / 16),
                           hexDigitChar (c.toNat % 16)] := by
                      simp [escChar, h1, h2, h3, h4, h5, h6, h7, h8]
                    rw [hc]
                    show parseStrBody ('\\' :: 'u' :: '0' :: '0'
                      :: hexDigitChar (c.toNat / 16) :: hexDigitChar (c.toNat % 16)
                      :: (escStr cs ++ '"' :: rest)) = _
                    have hx1 : hexVal (hexDigitChar (c.toNat / 16)) = some (c.toNat / 16) :=
                      hexVal_hexDigitChar _ (by omega)
                    have hx2 : hexVal (hexDigitChar (c.toNat % 16)) = some (c.toNat % 16) :=
                      hexVal_hexDigitChar _ (by omega)
                    have hcode : ((0 * 16 + 0) * 16 + c.toNat / 16) * 16 + c.toNat % 16
                        = c.toNat := by omega
                    rw [parseStrBody.eq_def]
                    simp only [if_neg (by decide : ¬('\\' = '"')),
                      if_pos (rfl : '\\' = '\\'), if_pos (rfl : 'u' = 'u'),
                      hx1, hx2, show hexVal '0' = some 0 from rfl]
                    rw [hcode]
                    rw [if_pos (Or.inl (by omega : c.toNat < 0xd800))]
                    rw [Char.ofNat_toNat, ih rest]
                    rfl
                  · have hc : escChar c = [c] := by
                      simp [escChar, h1, h2, h3, h4, h5, h6, h7, h8]
                    rw [hc]
                    show parseStrBody (c :: (escStr cs ++ '"' :: rest)) = _
                    rw [parseStrBody.eq_def]
                    simp only [if_neg h1, if_neg h2, if_neg h8]
                    rw [ih rest]
                    rfl

/-- Inserting a fresh key appends. -/
theorem insertPair_of_not_mem : ∀ (d : List (Str × Json)) (k : Str) (v : Json),
    k ∉ d.map Prod.fst → insertPair d k v = d ++ [(k, v)] := by
  intro d k v h
  induction d with
  | nil => rfl
  | cons p rest ih =>
    obtain ⟨k', v'⟩ := p
    simp only [List.map_cons, List.mem_cons] at h
    push_neg at h
    simp only [insertPair, if_neg (Ne.symm h.1)]
    rw [ih h.2]
    rfl

/-- Folding `insertPair` over members with fresh, pairwise-distinct keys
is concatenation. -/
theorem insertAll_append : ∀ (l acc : List (Str × Json)),
    (l.map Prod.fst).Nodup → (∀ p ∈ l, p.1 ∉ acc.map Prod.fst) →
    insertAll acc l = acc ++ l := by
  intro l
  induction l with
  | nil => intro acc _ _; simp [insertAll]
  | cons p ps ih =>
    intro acc hnd hfresh
    obtain ⟨k, v⟩ := p
    simp only [List.map_cons, List.nodup_cons] at hnd
    have step : insertAll acc ((k, v) :: ps) = insertAll (insertPair acc k v) ps := rfl
    rw [step, insertPair_of_not_mem acc k v (hfresh (k, v) (by simp))]
    rw [ih (acc ++ [(k, v)]) hnd.2 ?fresh]
    · simp
    case fresh =>
      intro q hq
      simp only [List.map_append, List.mem_append]
      push_neg
      refine ⟨hfresh q (by simp [hq]), ?_⟩
      simp only [List.map_cons, List.map_nil, List.mem_singleton]
      intro hqk
      exact hnd.1 (hqk ▸ List.mem_map_of_mem Prod.fst hq)

/-- Every fuel requirement is positive for a value. -/
theorem needF_pos : ∀ j : Json, 1 ≤ needF j := by
  intro j
  cases j <;> simp [needF]

mutual

/-- The serialization is at least as long as the fuel `parseVal`
needs. -/
theorem needF_le : ∀ j : Json, needF j ≤ (dumpVal j).length
  | .null => by simp [needF, dumpVal]
  | .bool true => by simp [needF, dumpVal]
  | .bool false => by simp [needF, dumpVal]
  | .num n => by
      simp only [needF, dumpVal]
      have := natToChars_ne_nil n.toNat
      have := natToChars_ne_nil n.natAbs
      unfold intToChars
      split
      · simp
      · rcases he : natToChars n.toNat with _ | ⟨c, cs⟩
        · exact absurd he (natToChars_ne_nil _)
        · simp
  | .str s => by simp [needF, dumpVal]
  | .arr [] => by simp [needF, needI, dumpVal]
  | .arr (x :: xs) => by
      have h1 := needF_le x
      have h2 := needI_le xs
      simp only [needF, needI, dumpVal, List.length_cons, List.length_append]
      omega
  | .obj [] => by simp [needF, needP, dumpVal]
  | .obj (p :: ps) => by
      obtain ⟨k, v⟩ := p
      have h1 := needF_le v
      have h2 := needP_le ps
      simp only [needF, needP, dumpVal, dumpPair, List.length_cons, List.length_append]
      omega

/-- Tail version for array items. -/
theorem needI_le : ∀ l : List Json, needI l ≤ (dumpItemsTail l).length
  | [] => by simp [needI, dumpItemsTail]
  | x :: xs => by
      have h1 := needF_le x
      have h2 := needI_le xs
      simp only [needI, dumpItemsTail, List.length_cons, List.length_append]
      omega

/-- Tail version for object members. -/
theorem needP_le : ∀ d : List (Str × Json), needP d ≤ (dumpPairsTail d).length
  | [] => by simp [needP, dumpPairsTail]
  | p :: ps => by
      obtain ⟨k, v⟩ := p
      have h1 := needF_le v
      have h2 := needP_le ps
      simp only [needP, dumpPairsTail, dumpPair, List.length_cons, List.length_append]
      omega

end

/-- The first character of an integer rendering: a digit or a minus
sign. -/
theorem intToChars_head (i : Int) :
    ∃ c cs, intToChars i = c :: cs ∧ (c.isDigit = true ∨ c = '-') := by
  unfold intToChars
  split
  · exact ⟨'-', _, rfl, Or.inr rfl⟩
  · rcases he : natToChars i.toNat with _ | ⟨c, cs⟩
    · exact absurd he (natToChars_ne_nil _)
    · exact ⟨c, cs, rfl, Or.inl (natToChars_digits _ c (by rw [he]; simp))⟩

/-- A numeral head char is not whitespace and not one of the scanner's
dispatch characters. -/
theorem numHead_ne (c : Char) (h : c.isDigit = true ∨ c = '-') :
    isJws c = false ∧ c ≠ '{' ∧ c ≠ '[' ∧ c ≠ '"' ∧ c ≠ 't' ∧ c ≠ 'f' ∧ c ≠ 'n' := by
  rcases h with hd | rfl
  · have hsp : c ≠ ' ' := fun he => absurd (he ▸ hd) (by decide)
    have htb : c ≠ '\t' := fun he => absurd (he ▸ hd) (by decide)
    have hnl : c ≠ '\n' := fun he => absurd (he ▸ hd) (by decide)
    have hcr : c ≠ '\r' := fun he => absurd (he ▸ hd) (by decide)
    refine ⟨by simp [isJws, hsp, htb, hnl, hcr], ?_, ?_, ?_, ?_, ?_, ?_⟩
    all_goals exact fun he => absurd (he ▸ hd) (by decide)
  · exact ⟨by decide, by decide, by decide, by decide, by decide, by decide, by decide⟩

/-- The serialization of any value starts with a character that is not
whitespace, `]` or `\x7d`. -/
theorem dumpVal_head (j : Json) :
    ∃ c cs, dumpVal j = c :: cs ∧ isJws c = false ∧ c ≠ ']' ∧ c ≠ '}' := by
  cases j with
  | num n =>
    obtain ⟨c, cs, he, hh⟩ := intToChars_head n
    obtain ⟨hws, -, -, -, -, -, -⟩ := numHead_ne c hh
    refine ⟨c, cs, he, hws, ?_, ?_⟩
    · rcases hh with hd | rfl
      · exact fun hbe => absurd (hbe ▸ hd) (by decide)
      · decide
    · rcases hh with hd | rfl
      · exact fun hbe => absurd (hbe ▸ hd) (by decide)
      · decide
  | null => exact ⟨'n', _, rfl, by decide⟩
  | bool b => rcases b with _ | _
              · exact ⟨'f', _, rfl, by decide⟩
              · exact ⟨'t', _, rfl, by decide⟩
  | str s => exact ⟨'"', _, rfl, by decide⟩
  | arr l => rcases l with _ | ⟨x, xs⟩
             · exact ⟨'[', _, rfl, by decide⟩
             · exact ⟨'[', _, rfl, by decide⟩
  | obj d => rcases d with _ | ⟨p, ps⟩
             · exact ⟨'{', _, rfl, by decide⟩
             · exact ⟨'{', _, rfl, by decide⟩

/-- What follows one serialized item never extends a numeral. -/
theorem numStop_itemsTail (xs : List Json) (rest : Str) :
    numStop (dumpItemsTail xs ++ ']' :: rest) := by
  cases xs with
  | nil => exact numStop_rbracket rest
  | cons y ys => exact numStop_comma _

/-- What follows one serialized member never extends a numeral. -/
theorem numStop_pairsTail (ps : List (Str × Json)) (rest : Str) :
    numStop (dumpPairsTail ps ++ '}' :: rest) := by
  cases ps with
  | nil => exact numStop_rbrace rest
  | cons q qs => exact numStop_comma _

/-- Completeness of the parser on serialized output: with enough fuel,
`parseVal` parses `dumpVal j` back to `j` exactly, and the item/member
loops parse serialized tails, for any well-formed `j` and any following
input that cannot extend a numeral. -/
theorem parse_complete : ∀ fuel : Nat,
    (∀ (j : Json) (rest : Str), needF j ≤ fuel → WF j → numStop rest →
      parseVal fuel (dumpVal j ++ rest) = some (j, rest))
    ∧ (∀ (x : Json) (xs : List Json) (rest : Str), needI (x :: xs) ≤ fuel →
        WF x → (∀ y ∈ xs, WF y) →
        parseItems fuel (dumpVal x ++ (dumpItemsTail xs ++ ']' :: rest))
          = some (x :: xs, rest))
    ∧ (∀ (k : Str) (v : Json) (ps acc : List (Str × Json)) (rest : Str),
        needP ((k, v) :: ps) ≤ fuel → WF v → (∀ p ∈ ps, WF p.2) →
        parsePairs fuel acc (dumpPair (k, v) ++ (dumpPairsTail ps ++ '}' :: rest))
          = some (insertAll acc ((k, v) :: ps), rest)) := by
  intro fuel
  induction fuel with
  | zero =>
    refine ⟨fun j rest hf => absurd hf (by have := needF_pos j; omega),
      fun x xs rest hf => absurd hf (by have := needF_pos x; simp only [needI]; omega),
      fun k v ps acc rest hf => absurd hf (by have := needF_pos v; simp only [needP]; omega)⟩
  | succ g ih =>
    obtain ⟨ihV, ihI, ihP⟩ := ih
    have stepV : ∀ (j : Json) (rest : Str), needF j ≤ g + 1 → WF j → numStop rest →
        parseVal (g + 1) (dumpVal j ++ rest) = some (j, rest) := by
      intro j rest hf hwf hstop
      cases j with
      | null => rfl
      | bool b => cases b <;> rfl
      | num n =>
        obtain ⟨c, cs, he, hh⟩ := intToChars_head n
        obtain ⟨hws, hne1, hne2, hne3, hne4, hne5, hne6⟩ := numHead_ne c hh
        show parseVal (g + 1) (intToChars n ++ rest) = _
        rw [he, List.cons_append]
        show (match skipWs (c :: (cs ++ rest)) with
          | [] => none
          | c' :: r =>
            if c' = '{' then
              match skipWs r with
              | '}' :: r' => some (Json.obj [], r')
              | _ => (parsePairs g [] r).map (fun (p : List (Str × Json) × Str) => (Json.obj p.1, p.2))
            else if c' = '[' then
              match skipWs r with
              | ']' :: r' => some (Json.arr [], r')
              | _ => (parseItems g r).map (fun (p : List Json × Str) => (Json.arr p.1, p.2))
            else if c' = '"' then
              (parseStrBody r).map (fun (p : Str × Str) => (Json.str p.1, p.2))
            else if c' = 't' then
              (stripLit ['r', 'u', 'e'] r).map (fun (r' : Str) => (Json.bool true, r'))
            else if c' = 'f' then
              (stripLit ['a', 'l', 's', 'e'] r).map (fun (r' : Str) => (Json.bool false, r'))
            else if c' = 'n' then
              (stripLit ['u', 'l', 'l'] r).map (fun (r' : Str) => (Json.null, r'))
            else
              (parseNumBody (c' :: r)).map (fun (p : Int × Str) => (Json.num p.1, p.2))) = _
        rw [skipWs_cons_of_not_ws hws]
        simp only [if_neg hne1, if_neg hne2, if_neg hne3, if_neg hne4, if_neg hne5,
          if_neg hne6]
        rw [← List.cons_append, ← he, parseNumBody_intToChars n rest hstop]
        rfl
      | str s =>
        have hd : dumpVal (.str s) ++ rest = '"' :: (escStr s ++ '"' :: rest) := by
          show ('"' :: (escStr s ++ ['"'])) ++ rest = _
          simp
        rw [hd]
        show (parseStrBody (escStr s ++ '"' :: rest)).map (fun (p : Str × Str) => (Json.str p.1, p.2)) = _
        rw [parseStrBody_escStr]
        rfl
      | arr l =>
        cases l with
        | nil => rfl
        | cons x xs =>
          have hd : dumpVal (.arr (x :: xs)) ++ rest
              = '[' :: (dumpVal x ++ (dumpItemsTail xs ++ ']' :: rest)) := by
            show ('[' :: (dumpVal x ++ dumpItemsTail xs ++ [']'])) ++ rest = _
            simp
          rw [hd]
          obtain ⟨c, cc, hx, hws, hrb, -⟩ := dumpVal_head x
          show (match skipWs (dumpVal x ++ (dumpItemsTail xs ++ ']' :: rest)) with
            | ']' :: r' => some (Json.arr [], r')
            | _ => (parseItems g (dumpVal x ++ (dumpItemsTail xs ++ ']' :: rest))).map
                (fun (p : List Json × Str) => (Json.arr p.1, p.2))) = _
          have hsw : skipWs (dumpVal x ++ (dumpItemsTail xs ++ ']' :: rest))
              = c :: (cc ++ (dumpItemsTail xs ++ ']' :: rest)) := by
            rw [hx, List.cons_append, skipWs_cons_of_not_ws hws]
          rw [hsw]
          have hfx : needI (x :: xs) ≤ g := by
            simp only [needF, if_pos] at hf
            omega
          have hitems := ihI x xs rest hfx (by cases hwf with | arr l hl => exact hl x (by simp))
            (by cases hwf with | arr l hl => exact fun y hy => hl y (by simp [hy]))
          split
          · next r' heq =>
            exfalso
            rw [List.cons.injEq] at heq
            exact hrb heq.1
          · rw [hitems]
            rfl
      | obj d =>
        cases d with
        | nil => rfl
        | cons p ps =>
          obtain ⟨k, v⟩ := p
          have hd : dumpVal (.obj ((k, v) :: ps)) ++ rest
              = '{' :: (dumpPair (k, v) ++ (dumpPairsTail ps ++ '}' :: rest)) := by
            show ('{' :: (dumpPair (k, v) ++ dumpPairsTail ps ++ ['}'])) ++ rest = _
            simp
          rw [hd]
          show (match skipWs (dumpPair (k, v) ++ (dumpPairsTail ps ++ '}' :: rest)) with
            | '}' :: r' => some (Json.obj [], r')
            | _ => (parsePairs g [] (dumpPair (k, v) ++ (dumpPairsTail ps ++ '}' :: rest))).map
                (fun (p : List (Str × Json) × Str) => (Json.obj p.1, p.2))) = _
          have hsw : skipWs (dumpPair (k, v) ++ (dumpPairsTail ps ++ '}' :: rest))
              = '"' :: ((escStr k ++ ['"', ':', ' '] ++ dumpVal v)
                  ++ (dumpPairsTail ps ++ '}' :: rest)) := by
            rw [show dumpPair (k, v) = '"' :: (escStr k ++ ['"', ':', ' '] ++ dumpVal v) from rfl,
              List.cons_append, skipWs_cons_of_not_ws (by decide)]
          rw [hsw]
          have hfv : needP ((k, v) :: ps) ≤ g := by
            simp only [needF] at hf
            omega
          have hwfv : WF v := by
            cases hwf with | obj d hv hn => exact hv (k, v) (by simp)
          have hwfps : ∀ q ∈ ps, WF q.2 := by
            cases hwf with | obj d hv hn => exact fun q hq => hv q (by simp [hq])
          have hnodup : (((k, v) :: ps).map Prod.fst).Nodup := by
            cases hwf with | obj d hv hn => exact hn
          have hpairs := ihP k v ps [] rest hfv hwfv hwfps
          split
          · next r' heq =>
            exfalso
            rw [List.cons.injEq] at heq
            exact absurd heq.1 (by decide)
          · rw [hpairs, insertAll_append _ [] hnodup (by simp)]
            rfl
    refine ⟨stepV, ?_, ?_⟩
    · intro x xs rest hfi hwx hwxs
      show (match parseVal g (dumpVal x ++ (dumpItemsTail xs ++ ']' :: rest)) with
        | none => none
        | some (v, r) =>
          match skipWs r with
          | ',' :: r' => (parseItems g r').map (fun (p : List Json × Str) => (v :: p.1, p.2))
          | ']' :: r' => some ([v], r')
          | _ => none) = _
      have hfx : needF x ≤ g := by
        simp only [needI] at hfi
        omega
      rw [ihV x (dumpItemsTail xs ++ ']' :: rest) hfx hwx (numStop_itemsTail xs rest)]
      cases xs with
      | nil =>
        show (match skipWs (']' :: rest) with
          | ',' :: r' => (parseItems g r').map (fun (p : List Json × Str) => (x :: p.1, p.2))
          | ']' :: r' => some ([x], r')
          | _ => none) = _
        rw [skipWs_cons_of_not_ws (by decide)]
        rfl
      | cons y ys =>
        show (match skipWs (dumpItemsTail (y :: ys) ++ ']' :: rest) with
          | ',' :: r' => (parseItems g r').map (fun (p : List Json × Str) => (x :: p.1, p.2))
          | ']' :: r' => some ([x], r')
          | _ => none) = _
        have htl : dumpItemsTail (y :: ys) ++ ']' :: rest
            = ',' :: ' ' :: (dumpVal y ++ (dumpItemsTail ys ++ ']' :: rest)) := by
          show (',' :: ' ' :: (dumpVal y ++ dumpItemsTail ys)) ++ ']' :: rest = _
          simp
        rw [htl]
        rw [show skipWs (',' :: ' ' :: (dumpVal y ++ (dumpItemsTail ys ++ ']' :: rest)))
          = ',' :: ' ' :: (dumpVal y ++ (dumpItemsTail ys ++ ']' :: rest))
          from skipWs_cons_of_not_ws (by decide) _]
        have hfy : needI (y :: ys) ≤ g := by
          have := needF_pos x
          simp only [needI] at hfi ⊢
          omega
        have hy := ihI y ys rest hfy (hwxs y (by simp)) (fun z hz => hwxs z (by simp [hz]))
        show (parseItems g (' ' :: (dumpVal y ++ (dumpItemsTail ys ++ ']' :: rest)))).map
            (fun (p : List Json × Str) => (x :: p.1, p.2)) = _
        rw [parseItems_cons_space, hy]
        rfl
    · intro k v ps acc rest hfp hwv hwps
      have hdp : dumpPair (k, v) ++ (dumpPairsTail ps ++ '}' :: rest)
          = '"' :: (escStr k ++ '"' :: ':' :: ' ' :: (dumpVal v ++ (dumpPairsTail ps ++ '}' :: rest))) := by
        show ('"' :: (escStr k ++ ['"', ':', ' '] ++ dumpVal v)) ++ (dumpPairsTail ps ++ '}' :: rest) = _
        simp
      rw [hdp]
      show (match parseStrBody (escStr k ++ '"' :: ':' :: ' '
            :: (dumpVal v ++ (dumpPairsTail ps ++ '}' :: rest))) with
        | none => none
        | some (k', r1) =>
          match skipWs r1 with
          | ':' :: r2 =>
            match parseVal g r2 with
            | none => none
            | some (v', r3) =>
              let acc' := insertPair acc k' v'
              match skipWs r3 with
              | ',' :: r4 => parsePairs g acc' r4
              | '}' :: r4 => some (acc', r4)
              | _ => none
          | _ => none) = _
      rw [parseStrBody_escStr k (':' :: ' ' :: (dumpVal v ++ (dumpPairsTail ps ++ '}' :: rest)))]
      show (match parseVal g (' ' :: (dumpVal v ++ (dumpPairsTail ps ++ '}' :: rest))) with
        | none => none
        | some (v', r3) =>
          let acc' := insertPair acc k v'
          match skipWs r3 with
          | ',' :: r4 => parsePairs g acc' r4
          | '}' :: r4 => some (acc', r4)
          | _ => none) = _
      have hfv : needF v ≤ g := by
        simp only [needP] at hfp
        omega
      rw [parseVal_cons_space g (dumpVal v ++ (dumpPairsTail ps ++ '}' :: rest))]
      rw [ihV v (dumpPairsTail ps ++ '}' :: rest) hfv hwv (numStop_pairsTail ps rest)]
      cases ps with
      | nil =>
        show (match skipWs ('}' :: rest) with
          | ',' :: r4 => parsePairs g (insertPair acc k v) r4
          | '}' :: r4 => some (insertPair acc k v, r4)
          | _ => none) = _
        rw [skipWs_cons_of_not_ws (by decide)]
        rfl
      | cons q qs =>
        obtain ⟨k2, v2⟩ := q
        have htl : dumpPairsTail ((k2, v2) :: qs) ++ '}' :: rest
            = ',' :: ' ' :: (dumpPair (k2, v2) ++ (dumpPairsTail qs ++ '}' :: rest)) := by
          show (',' :: ' ' :: (dumpPair (k2, v2) ++ dumpPairsTail qs)) ++ '}' :: rest = _
          simp
        rw [htl]
        show parsePairs g (insertPair acc k v)
            (' ' :: (dumpPair (k2, v2) ++ (dumpPairsTail qs ++ '}' :: rest))) = _
        have hfq : needP ((k2, v2) :: qs) ≤ g := by
          have := needF_pos v
          simp only [needP] at hfp ⊢
          omega
        have hq := ihP k2 v2 qs (insertPair acc k v) rest hfq
          (hwps (k2, v2) (by simp)) (fun z hz => hwps z (by simp [hz]))
        rw [parsePairs_cons_space, hq]
        rfl

/-- Key membership after a dict insertion. -/
theorem mem_keys_insertPair : ∀ (d : List (Str × Json)) (k : Str) (v : Json) (a : Str),
    a ∈ (insertPair d k v).map Prod.fst ↔ a ∈ d.map Prod.fst ∨ a = k := by
  intro d k v a
  induction d with
  | nil =>
    show a ∈ [(k, v)].map Prod.fst ↔ _
    simp
  | cons p rest ih =>
    obtain ⟨k', v'⟩ := p
    by_cases he : k' = k
    · subst he
      rw [show insertPair ((k', v') :: rest) k' v = (k', v) :: rest from by
        simp [insertPair]]
      simp only [List.map_cons, List.mem_cons]
      tauto
    · rw [show insertPair ((k', v') :: rest) k v = (k', v') :: insertPair rest k v from by
        simp [insertPair, he]]
      simp only [List.map_cons, List.mem_cons, ih]
      tauto

/-- Dict insertion preserves key distinctness. -/
theorem insertPair_nodup : ∀ (d : List (Str × Json)) (k : Str) (v : Json),
    (d.map Prod.fst).Nodup → ((insertPair d k v).map Prod.fst).Nodup := by
  intro d k v h
  induction d with
  | nil =>
    show ([(k, v)].map Prod.fst).Nodup
    simp
  | cons p rest ih =>
    obtain ⟨k', v'⟩ := p
    simp only [List.map_cons, List.nodup_cons] at h
    by_cases he : k' = k
    · subst he
      rw [show insertPair ((k', v') :: rest) k' v = (k', v) :: rest from by
        simp [insertPair]]
      simp only [List.map_cons, List.nodup_cons]
      exact h
    · rw [show insertPair ((k', v') :: rest) k v = (k', v') :: insertPair rest k v from by
        simp [insertPair, he]]
      simp only [List.map_cons, List.nodup_cons]
      refine ⟨?_, ih h.2⟩
      rw [mem_keys_insertPair]
      push_neg
      exact ⟨h.1, he⟩

/-- Dict insertion preserves member well-formedness. -/
theorem insertPair_wf_members : ∀ (d : List (Str × Json)) (k : Str) (v : Json),
    (∀ p ∈ d, WF p.2) → WF v → ∀ p ∈ insertPair d k v, WF p.2 := by
  intro d k v hd hv
  induction d with
  | nil =>
    intro p hp
    rw [show insertPair [] k v = [(k, v)] from rfl, List.mem_singleton] at hp
    subst hp
    exact hv
  | cons q rest ih =>
    obtain ⟨k', v'⟩ := q
    by_cases he : k' = k
    · subst he
      intro p hp
      rw [show insertPair ((k', v') :: rest) k' v = (k', v) :: rest from by
        simp [insertPair]] at hp
      rcases List.mem_cons.mp hp with heq | hp
      · subst heq; exact hv
      · exact hd p (by simp [hp])
    · intro p hp
      rw [show insertPair ((k', v') :: rest) k v = (k', v') :: insertPair rest k v from by
        simp [insertPair, he]] at hp
      rcases List.mem_cons.mp hp with heq | hp
      · subst heq; exact hd (k', v') (by simp)
      · exact ih (fun q hq => hd q (by simp [hq])) p hp

/-- Soundness of the parser: every parsed value is well-formed (object
keys are pairwise distinct, by the dict-insertion discipline of
`parsePairs`). -/
theorem parse_sound : ∀ fuel : Nat,
    (∀ (cs : Str) (j : Json) (r : Str), parseVal fuel cs = some (j, r) → WF j)
    ∧ (∀ (cs : Str) (l : List Json) (r : Str), parseItems fuel cs = some (l, r) →
        ∀ x ∈ l, WF x)
    ∧ (∀ (acc : List (Str × Json)) (cs : Str) (d : List (Str × Json)) (r : Str),
        parsePairs fuel acc cs = some (d, r) →
        (acc.map Prod.fst).Nodup → (∀ p ∈ acc, WF p.2) →
        (d.map Prod.fst).Nodup ∧ ∀ p ∈ d, WF p.2) := by
  intro fuel
  induction fuel with
  | zero =>
    refine ⟨fun cs j r h => by simp [parseVal] at h,
      fun cs l r h => by simp [parseItems] at h,
      fun acc cs d r h => by simp [parsePairs] at h⟩
  | succ g ih =>
    obtain ⟨ihV, ihI, ihP⟩ := ih
    refine ⟨?_, ?_, ?_⟩
    · intro cs j r h
      simp only [parseVal] at h
      split at h
      · exact absurd h (by simp)
      · split_ifs at h
        · -- object
          split at h
          · rw [Option.some.injEq, Prod.mk.injEq] at h
            rw [← h.1]
            exact WF.obj [] (by simp) (by simp)
          · rw [Option.map_eq_some'] at h
            obtain ⟨⟨d, r1⟩, hp, heq⟩ := h
            rw [Prod.mk.injEq] at heq
            rw [← heq.1]
            obtain ⟨hn, hw⟩ := ihP [] _ d r1 hp (by simp) (by simp)
            exact WF.obj d hw hn
        · -- array
          split at h
          · rw [Option.some.injEq, Prod.mk.injEq] at h
            rw [← h.1]
            exact WF.arr [] (by simp)
          · rw [Option.map_eq_some'] at h
            obtain ⟨⟨l, r1⟩, hp, heq⟩ := h
            rw [Prod.mk.injEq] at heq
            rw [← heq.1]
            exact WF.arr l (ihI _ l r1 hp)
        · -- string
          rw [Option.map_eq_some'] at h
          obtain ⟨⟨s, r1⟩, -, heq⟩ := h
          rw [Prod.mk.injEq] at heq
          rw [← heq.1]
          exact WF.str s
        · rw [Option.map_eq_some'] at h
          obtain ⟨r1, -, heq⟩ := h
          rw [Prod.mk.injEq] at heq
          rw [← heq.1]
          exact WF.bool true
        · rw [Option.map_eq_some'] at h
          obtain ⟨r1, -, heq⟩ := h
          rw [Prod.mk.injEq] at heq
          rw [← heq.1]
          exact WF.bool false
        · rw [Option.map_eq_some'] at h
          obtain ⟨r1, -, heq⟩ := h
          rw [Prod.mk.injEq] at heq
          rw [← heq.1]
          exact WF.null
        · rw [Option.map_eq_some'] at h
          obtain ⟨⟨n, r1⟩, -, heq⟩ := h
          rw [Prod.mk.injEq] at heq
          rw [← heq.1]
          exact WF.num n
    · intro cs l r h
      simp only [parseItems] at h
      split at h
      · exact absurd h (by simp)
      · next v r1 hv =>
        have hwv : WF v := ihV cs v r1 hv
        split at h
        · rw [Option.map_eq_some'] at h
          obtain ⟨⟨l2, r2⟩, hp, heq⟩ := h
          rw [Prod.mk.injEq] at heq
          rw [← heq.1]
          intro x hx
          rcases List.mem_cons.mp hx with rfl | hx
          · exact hwv
          · exact ihI _ l2 r2 hp x hx
        · rw [Option.some.injEq, Prod.mk.injEq] at h
          rw [← h.1]
          intro x hx
          rcases List.mem_cons.mp hx with rfl | hx
          · exact hwv
          · simp at hx
        · exact absurd h (by simp)
    · intro acc cs d r h hnd hwa
      simp only [parsePairs] at h
      split at h
      · next k0 r0 =>
        split at h
        · exact absurd h (by simp)
        · next k r1 hsb =>
          split at h
          · next r2 =>
            split at h
            · exact absurd h (by simp)
            · next v r3 hpv =>
              have hwv : WF v := ihV _ v r3 hpv
              split at h
              · exact ihP (insertPair acc k v) _ d r h
                  (insertPair_nodup acc k v hnd)
                  (insertPair_wf_members acc k v hwa hwv)
              · rw [Option.some.injEq, Prod.mk.injEq] at h
                rw [← h.1]
                exact ⟨insertPair_nodup acc k v hnd,
                  insertPair_wf_members acc k v hwa hwv⟩
              · exact absurd h (by simp)
          · exact absurd h (by simp)
      · exact absurd h (by simp)

/-- A successfully loaded document is well-formed. -/
theorem jloads_wf (s : Str) (j : Json) (h : jloads s = some j) : WF j := by
  unfold jloads at h
  split at h
  · next j0 rest hp =>
    split_ifs at h
    rw [Option.some.injEq] at h
    rw [← h]
    exact (parse_sound (s.length + 1)).1 s j0 rest hp
  · exact absurd h (by simp)

/-- Loading the serialization of a well-formed value gives it back. -/
theorem jloads_dump (j : Json) (hwf : WF j) : jloads (dumpVal j) = some j := by
  have hp : parseVal ((dumpVal j).length + 1) (dumpVal j ++ []) = some (j, []) :=
    (parse_complete ((dumpVal j).length + 1)).1 j []
      (by have := needF_le j; omega) hwf trivial
  rw [List.append_nil] at hp
  unfold jloads
  rw [hp]
  simp [skipWs]

/-- A document that loads successfully and begins with `\x7b` is an
object: `parseVal` dispatches on the first non-space character, and the
`\x7b` branch only ever produces `Json.obj`. -/
theorem jloads_lbrace (r : Str) (j : Json)
    (h : jloads ('{' :: r) = some j) : ∃ d, j = Json.obj d := by
  unfold jloads at h
  split at h
  · next j0 rest hp =>
    split_ifs at h
    rw [Option.some.injEq] at h
    subst h
    rw [show ('{' :: r).length + 1 = r.length + 1 + 1 from by simp] at hp
    simp only [parseVal] at hp
    rw [show skipWs ('{' :: r) = '{' :: r from by simp [skipWs, isJws]] at hp
    simp only [reduceIte] at hp
    split at hp
    · rw [Option.some.injEq, Prod.mk.injEq] at hp
      exact ⟨[], hp.1.symm⟩
    · rw [Option.map_eq_some'] at hp
      obtain ⟨⟨d, r1⟩, -, heq⟩ := hp
      rw [Prod.mk.injEq] at heq
      exact ⟨d, heq.1.symm⟩
  · exact absurd h (by simp)

/-- What `findFrom` reports is a real occurrence: dropping up to the
reported index exposes the sought character. -/
theorem findFrom_drop : ∀ (s : Str) (c : Char) (k i : Nat),
    findFrom s c k = some i → k ≤ i ∧ ∃ r, s.drop (i - k) = c :: r := by
  intro s c
  induction s with
  | nil => intro k i h; exact absurd h (by simp [findFrom])
  | cons x xs ih =>
    intro k i h
    rw [show findFrom (x :: xs) c k = if x = c then some k else findFrom xs c (k + 1)
      from rfl] at h
    split_ifs at h with hx
    · rw [Option.some.injEq] at h
      subst h hx
      exact ⟨le_refl k, xs, by simp⟩
    · obtain ⟨hk, r, hr⟩ := ih (k + 1) i h
      refine ⟨by omega, r, ?_⟩
      rw [show i - k = (i - (k + 1)) + 1 from by omega]
      simpa using hr

/-- The serialization of an object is a `\x7b`, a body, then a
`\x7d`. -/
theorem dump_obj_shape : ∀ d : List (Str × Json),
    ∃ body : Str, dumpVal (Json.obj d) = '{' :: (body ++ ['}']) := by
  intro d
  cases d with
  | nil => exact ⟨[], rfl⟩
  | cons p ps =>
    refine ⟨dumpPair p ++ dumpPairsTail ps, ?_⟩
    show '{' :: (dumpPair p ++ dumpPairsTail ps ++ ['}'])
        = '{' :: (dumpPair p ++ dumpPairsTail ps ++ ['}'])
    rfl

/-- `extract`, with its `let`-bindings spelled out. -/
theorem extract_eq (t : Str) :
    JsonExtractor.extract t =
      if pyFind t '{' = -1 ∨ pyRfind t '}' = -1 ∨ pyRfind t '}' ≤ pyFind t '{' then t
      else
        match jloads (pySliceCore t (pyFind t '{').toNat ((pyRfind t '}').toNat + 1)) with
        | some parsed => dumpVal parsed
        | none => t := rfl

/-- `extract` leaves the serialization of a well-formed object fixed:
the first `\x7b` is its opening brace, the last `\x7d` its closing one,
the delimited slice is the whole text, and reparsing it reproduces the
object. -/
theorem extract_dump_obj (d : List (Str × Json)) (hwf : WF (Json.obj d)) :
    JsonExtractor.extract (dumpVal (Json.obj d)) = dumpVal (Json.obj d) := by
  obtain ⟨body, hb⟩ := dump_obj_shape d
  have hload : jloads (dumpVal (Json.obj d)) = some (Json.obj d) := jloads_dump _ hwf
  rw [hb] at hload ⊢
  have hfind : pyFind ('{' :: (body ++ ['}'])) '{' = 0 := by
    simp [pyFind, findFrom]
  have hrev : ('{' :: (body ++ ['}'])).reverse = '}' :: ('{' :: body).reverse := by
    rw [show ('{' :: (body ++ ['}'])) = ('{' :: body) ++ ['}'] from by simp]
    simp
  have hrfind : pyRfind ('{' :: (body ++ ['}'])) '}' = ((body.length + 1 : Nat) : Int) := by
    unfold pyRfind
    rw [hrev]
    rw [show findFrom ('}' :: ('{' :: body).reverse) '}' 0 = some 0 from by
      simp [findFrom]]
    simp
  rw [extract_eq, hfind, hrfind]
  rw [if_neg (by push_neg; refine ⟨by decide, by omega, by omega⟩)]
  rw [show pySliceCore ('{' :: (body ++ ['}'])) (Int.toNat 0)
        ((((body.length + 1 : Nat) : Int)).toNat + 1) = '{' :: (body ++ ['}']) from by
    unfold pySliceCore
    simp [List.take_of_length_le]]
  rw [hload]
  exact hb

/-- When `extract` changes its input at all, it returns the
serialization of some well-formed JSON object. -/
theorem extract_changed (t : Str) (h : JsonExtractor.extract t ≠ t) :
    ∃ d : List (Str × Json),
      JsonExtractor.extract t = dumpVal (Json.obj d) ∧ WF (Json.obj d) := by
  rw [extract_eq] at h ⊢
  split_ifs at h ⊢ with hc
  · exact absurd rfl h
  · push_neg at hc
    obtain ⟨hs1, hs2, hs3⟩ := hc
    have hfind : ∃ i : Nat, findFrom t '{' 0 = some i := by
      unfold pyFind at hs1
      split at hs1
      · next i hf => exact ⟨i, hf⟩
      · exact absurd rfl hs1
    obtain ⟨i, hf⟩ := hfind
    have hpf : pyFind t '{' = (i : Int) := by unfold pyFind; rw [hf]
    obtain ⟨-, r, hdrop⟩ := findFrom_drop t '{' 0 i hf
    rw [Nat.sub_zero] at hdrop
    have hstop : (0 : Int) ≤ pyRfind t '}' := by
      unfold pyRfind
      split
      · positivity
      · next hn => exact absurd rfl (by rw [show pyRfind t '}' = -1 from by
          unfold pyRfind; rw [hn]] at hs2; exact hs2)
    have hslice : ∃ m : Nat,
        pySliceCore t (pyFind t '{').toNat ((pyRfind t '}').toNat + 1)
          = '{' :: r.take m := by
      refine ⟨(pyRfind t '}').toNat + 1 - i - 1, ?_⟩
      unfold pySliceCore
      rw [hpf]
      rw [show (↑i : Int).toNat = i from by simp]
      rw [hdrop]
      rw [show (pyRfind t '}').toNat + 1 - i
            = ((pyRfind t '}').toNat + 1 - i - 1) + 1 from by
        rw [hpf] at hs3
        omega]
      simp
    obtain ⟨m, hm⟩ := hslice
    rw [hm] at h ⊢
    rcases hp : jloads ('{' :: r.take m) with _ | parsed
    · rw [hp] at h
      exact absurd rfl h
    · obtain ⟨d, hd⟩ := jloads_lbrace _ _ hp
      subst hd
      exact ⟨d, rfl, jloads_wf _ _ hp⟩

/-- C7: `JsonExtractor.extract` is idempotent — applying it to its own
output changes nothing, whether the first application fell back to the
unchanged text or produced the compact re-serialization of an extracted
JSON object. -/
theorem extract_idempotent (t : Str) :
    JsonExtractor.extract (JsonExtractor.extract t) = JsonExtractor.extract t := by
  by_cases h : JsonExtractor.extract t = t
  · rw [h]
    exact h
  · obtain ⟨d, hd, hwf⟩ := extract_changed t h
    rw [hd]
    exact extract_dump_obj d hwf
